import Mathlib

/-!
Verification of the subscription state-derivation engine and webhook
event-processing pipeline of a Django/Stripe billing app.

The development shallowly embeds the checked-in Python sources:
  * `billing/models.py` — catalog (`Plan`, `Limit`, `PlanLimit`), the
    account billing profile (`Customer`) with its `subscription` resolution
    and `state` derivation, and `StripeSubscription.sync_to_customer`;
  * `billing/tasks.py` — the webhook event classifier and the
    `process_stripe_event` pipeline;
  * `billing/views/webhook.py` — the ingest view.

Django querysets are embedded as Lists, wall-clock time as a `now : Nat`
parameter (timestamps are Nats), and Python exceptions as `Except` values.
-/

set_option linter.unusedVariables false

namespace Billing

/-- `Plan.Type` choices (`billing/models.py`). -/
inductive PlanType where
  | free_default
  | free_private
  | paid_public
  | paid_private
deriving DecidableEq, Repr

/-- The `Plan` model (`billing/models.py`).  Only the fields the verified
operations read are embedded: the primary key, `type` and `price_id`
(`name`, `display_price` and the limits m2m are carried by other tables). -/
structure Plan where
  id : Nat
  type : PlanType
  price_id : Option String
deriving DecidableEq, Repr

/-- `StripeSubscription.Status` choices (`billing/models.py`). -/
inductive SubStatus where
  | incomplete
  | incomplete_expired
  | active
  | past_due
  | canceled
deriving DecidableEq, Repr

/-- The `StripeSubscription` model (`billing/models.py`).  `customer` is the
nullable foreign key to `Customer`, held as the customer's primary key. -/
structure StripeSubscription where
  id : String
  customer : Option Nat
  current_period_end : Nat
  price_id : String
  cancel_at_period_end : Bool
  created : Nat
  status : SubStatus
deriving DecidableEq, Repr

/-- The `Customer` model (`billing/models.py`).  `plan` is the resolved
foreign key object; `current_period_end` is the nullable timestamp. -/
structure Customer where
  pk : Nat
  plan : Plan
  current_period_end : Option Nat
deriving DecidableEq, Repr

/-- Decidability for the `∃ x, o = some x ∧ p x` shape used to express
Python's `o is not None and p(o)` conjunctions. -/
instance {α : Type} {p : α → Prop} [DecidablePred p] (o : Option α) :
    Decidable (∃ x, o = some x ∧ p x) :=
  match o with
  | none => .isFalse (by simp)
  | some a => decidable_of_iff (p a) (by simp)

/-- Sort order of `order_by("-created")`: most recently created first. -/
def createdDesc (a b : StripeSubscription) : Prop :=
  b.created ≤ a.created

instance : DecidableRel createdDesc :=
  fun a b => Nat.decLe b.created a.created

instance : IsTotal StripeSubscription createdDesc :=
  ⟨fun a b => Nat.le_total b.created a.created⟩

instance : IsTrans StripeSubscription createdDesc :=
  ⟨fun _ _ _ h1 h2 => Nat.le_trans h2 h1⟩

/-- `self.stripesubscription_set` of a `Customer`: the subscription records
whose foreign key points at this customer, out of all records `subs`. -/
def Customer.subscriptionSet (subs : List StripeSubscription) (c : Customer) :
    List StripeSubscription :=
  subs.filter (fun s => s.customer = some c.pk)

/-- The queryset scanned by `Customer.subscription` (`billing/models.py`):
the customer's records ordered by `-created`, with canceled and
incomplete-expired records excluded when the customer is not on a paid
plan. -/
def Customer.consideredSubs (subs : List StripeSubscription) (c : Customer) :
    List StripeSubscription :=
  let ordered := List.insertionSort createdDesc (Customer.subscriptionSet subs c)
  if ¬(c.plan.type = .paid_public ∨ c.plan.type = .paid_private) then
    ordered.filter (fun s => ¬(s.status = .canceled ∨ s.status = .incomplete_expired))
  else ordered

/-- The `Customer.subscription` property (`billing/models.py`): resolve the
canonical `StripeSubscription` of a customer.  The first active record
wins, else the first past-due record, else the most recently created
remaining one (`subscriptions[0]`, `None` when empty). -/
def Customer.subscription (subs : List StripeSubscription) (c : Customer) :
    Option StripeSubscription :=
  match (Customer.consideredSubs subs c).find? (fun s => s.status = .active) with
  | some s => some s
  | none =>
    match (Customer.consideredSubs subs c).find? (fun s => s.status = .past_due) with
    | some s => some s
    | none => (Customer.consideredSubs subs c).head?

/-- The `Customer.state` property (`billing/models.py`): the derived state
string, computed from the plan type, `current_period_end` against the
wall clock `now`, and the resolved subscription.  The ten guarded cases
appear in source order; an unmatched tuple yields `"invalid"`. -/
def Customer.state (now : Nat) (subs : List StripeSubscription) (c : Customer) :
    String :=
  let sub := Customer.subscription subs c
  if c.plan.type = .free_default ∧ c.current_period_end = none ∧ sub = none then
    "free_default.new"
  else if c.plan.type ≠ .free_default ∧
      (∃ t, c.current_period_end = some t ∧ t < now) ∧
      (∃ s, sub = some s ∧ s.status = .active ∧ s.cancel_at_period_end = true) then
    "free_default.canceled.missed_webhook"
  else if (c.plan.type = .paid_public ∨ c.plan.type = .paid_private) ∧
      (∃ t, c.current_period_end = some t ∧ t > now) ∧
      (∃ s, sub = some s ∧ s.status = .active ∧ s.cancel_at_period_end = false) then
    "paid.paying"
  else if (c.plan.type = .paid_public ∨ c.plan.type = .paid_private) ∧
      (∃ t, c.current_period_end = some t ∧ t > now) ∧
      (∃ s, sub = some s ∧ s.status = .active ∧ s.cancel_at_period_end = true) then
    "paid.will_cancel"
  else if c.plan.type = .free_private ∧ c.current_period_end = none ∧ sub = none then
    "free_private.indefinite"
  else if c.plan.type = .free_private ∧
      (∃ t, c.current_period_end = some t ∧ t > now) ∧ sub = none then
    "free_private.will_expire"
  else if c.plan.type = .free_private ∧
      (∃ t, c.current_period_end = some t ∧ t < now) ∧ sub = none then
    "free_private.expired"
  else if c.plan.type = .free_default ∧ c.current_period_end = none ∧
      (∃ s, sub = some s ∧ s.status = .incomplete) then
    "free_default.incomplete.requires_payment_method"
  else if (c.plan.type = .paid_public ∨ c.plan.type = .paid_private) ∧
      (∃ t, c.current_period_end = some t ∧ t < now) ∧
      (∃ s, sub = some s ∧ s.status = .past_due) then
    "free_default.past_due.requires_payment_method"
  else if (c.plan.type = .paid_public ∨ c.plan.type = .paid_private) ∧
      (∃ t, c.current_period_end = some t ∧ now ≤ t) ∧
      (∃ s, sub = some s ∧ s.status = .past_due) then
    "paid.past_due.requires_payment_method"
  else
    "invalid"

/-- Concrete sample data used to instantiate the theorems with hypotheses. -/
def planPaidEx : Plan := ⟨1, .paid_public, some "price_1"⟩

def planFreeEx : Plan := ⟨2, .free_default, none⟩

def subActiveCancelEx : StripeSubscription :=
  ⟨"sub_1", some 7, 100, "price_1", true, 50, .active⟩

def subPastDueEx : StripeSubscription :=
  ⟨"sub_2", some 7, 100, "price_1", false, 40, .past_due⟩

def custPaidEx : Customer := ⟨7, planPaidEx, some 10⟩

/-- C1: a profile on a non-FreeDefault plan whose `current_period_end` has
lapsed while its canonical subscription is still Active with
`cancel_at_period_end` set derives the pessimistic
`free_default.canceled.missed_webhook` state. -/
theorem C1_missed_webhook_fallback
    (now t : Nat) (subs : List StripeSubscription) (c : Customer)
    (s : StripeSubscription)
    (hplan : c.plan.type ≠ .free_default)
    (hcpe : c.current_period_end = some t) (hlt : t < now)
    (hsub : Customer.subscription subs c = some s)
    (hst : s.status = .active) (hcancel : s.cancel_at_period_end = true) :
    Customer.state now subs c = "free_default.canceled.missed_webhook" := by
  simp [Customer.state, hsub, hcpe, hplan, hst, hcancel, hlt]

/-- C1 witness: the fallback fires on a concrete expired paid customer. -/
theorem C1_missed_webhook_fallback_witness :
    Customer.state 20 [subActiveCancelEx] custPaidEx =
      "free_default.canceled.missed_webhook" :=
  C1_missed_webhook_fallback 20 10 [subActiveCancelEx] custPaidEx
    subActiveCancelEx (by decide) rfl (by decide) (by decide) rfl rfl

/-- C9: a paid-plan profile whose canonical subscription is Active and whose
`current_period_end` equals the current time matches no case of
`Customer.state` and derives `"invalid"`: the paying / will-cancel cases
need a strictly future period end, the missed-webhook case a strictly past
one. -/
theorem C9_active_boundary_invalid
    (now : Nat) (subs : List StripeSubscription) (c : Customer)
    (s : StripeSubscription)
    (hplan : c.plan.type = .paid_public ∨ c.plan.type = .paid_private)
    (hcpe : c.current_period_end = some now)
    (hsub : Customer.subscription subs c = some s)
    (hst : s.status = .active) :
    Customer.state now subs c = "invalid" := by
  have h1 : c.plan.type ≠ .free_default := by
    rcases hplan with h | h <;> simp [h]
  have h2 : c.plan.type ≠ .free_private := by
    rcases hplan with h | h <;> simp [h]
  simp [Customer.state, hsub, hcpe, h1, h2, hst]

/-- C9 witness: a concrete active paid customer at the exact boundary. -/
theorem C9_active_boundary_invalid_witness :
    Customer.state 10 [subActiveCancelEx] custPaidEx = "invalid" :=
  C9_active_boundary_invalid 10 [subActiveCancelEx] custPaidEx
    subActiveCancelEx (by decide) rfl (by decide) (by decide)

/-- C5: for a paid-plan profile whose canonical subscription is PastDue, a
`current_period_end` equal to `now` is not expired (case 10's `>=` branch,
`paid.past_due.requires_payment_method`), while a strictly past one is
(case 9's `<` branch, `free_default.past_due.requires_payment_method`). -/
theorem C5_past_due_boundary
    (now t : Nat) (subs : List StripeSubscription) (c : Customer)
    (s : StripeSubscription)
    (hplan : c.plan.type = .paid_public ∨ c.plan.type = .paid_private)
    (hsub : Customer.subscription subs c = some s)
    (hst : s.status = .past_due) :
    (c.current_period_end = some now →
      Customer.state now subs c = "paid.past_due.requires_payment_method") ∧
    (c.current_period_end = some t → t < now →
      Customer.state now subs c = "free_default.past_due.requires_payment_method") := by
  have h1 : c.plan.type ≠ .free_default := by
    rcases hplan with h | h <;> simp [h]
  have h2 : c.plan.type ≠ .free_private := by
    rcases hplan with h | h <;> simp [h]
  constructor
  · intro hcpe
    simp [Customer.state, hsub, hcpe, h1, h2, hst, hplan]
  · intro hcpe hlt
    simp [Customer.state, hsub, hcpe, h1, h2, hst, hplan, hlt]

/-- C5 witness: both boundary branches on a concrete past-due customer. -/
theorem C5_past_due_boundary_witness :
    (Customer.state 10 [subPastDueEx] custPaidEx =
      "paid.past_due.requires_payment_method") ∧
    (Customer.state 20 [subPastDueEx] custPaidEx =
      "free_default.past_due.requires_payment_method") :=
  ⟨(C5_past_due_boundary 10 10 [subPastDueEx] custPaidEx subPastDueEx
      (by decide) (by decide) rfl).1 rfl,
   (C5_past_due_boundary 20 10 [subPastDueEx] custPaidEx subPastDueEx
      (by decide) (by decide) rfl).2 rfl (by decide)⟩

/-- The first match found in a list sorted by descending `created` is maximal
in `created` among all matching elements. -/
theorem sorted_find?_max {p : StripeSubscription → Bool} :
    ∀ {l : List StripeSubscription}, List.Sorted createdDesc l →
    ∀ {r : StripeSubscription}, l.find? p = some r →
    r ∈ l ∧ p r = true ∧ ∀ r' ∈ l, p r' = true → r'.created ≤ r.created := by
  intro l hs
  induction l with
  | nil => intro r h; simp at h
  | cons x xs ih =>
    intro r hf
    rcases List.sorted_cons.mp hs with ⟨hx, hxs⟩
    by_cases hpx : p x = true
    · rw [List.find?_cons_of_pos _ hpx] at hf
      cases hf
      refine ⟨List.mem_cons_self _ _, hpx, ?_⟩
      intro r' hr' _
      rcases List.mem_cons.mp hr' with h | h
      · subst h; exact le_refl _
      · exact hx r' h
    · rw [List.find?_cons_of_neg _ hpx] at hf
      obtain ⟨hm, hp, hmax⟩ := ih hxs hf
      refine ⟨List.mem_cons_of_mem _ hm, hp, ?_⟩
      intro r' hr' hpr'
      rcases List.mem_cons.mp hr' with h | h
      · subst h; exact absurd hpr' hpx
      · exact hmax r' h hpr'

/-- The head of a list sorted by descending `created` is maximal in
`created`. -/
theorem sorted_head?_max :
    ∀ {l : List StripeSubscription}, List.Sorted createdDesc l →
    ∀ {r : StripeSubscription}, l.head? = some r →
    r ∈ l ∧ ∀ r' ∈ l, r'.created ≤ r.created := by
  intro l hs r hh
  cases l with
  | nil => simp at hh
  | cons x xs =>
    cases hh
    rcases List.sorted_cons.mp hs with ⟨hx, -⟩
    refine ⟨List.mem_cons_self _ _, ?_⟩
    intro r' hr'
    rcases List.mem_cons.mp hr' with h | h
    · subst h; exact le_refl _
    · exact hx r' h

/-- The scanned queryset stays sorted by descending `created`. -/
theorem consideredSubs_sorted (subs : List StripeSubscription) (c : Customer) :
    List.Sorted createdDesc (Customer.consideredSubs subs c) := by
  unfold Customer.consideredSubs
  split
  · exact (List.sorted_insertionSort createdDesc _).filter _
  · exact List.sorted_insertionSort createdDesc _

/-- Membership in the scanned queryset: a record of the customer survives
iff the plan is paid or the record is not canceled/incomplete-expired. -/
theorem mem_consideredSubs {subs : List StripeSubscription} {c : Customer}
    {r : StripeSubscription} :
    r ∈ Customer.consideredSubs subs c ↔
      r ∈ Customer.subscriptionSet subs c ∧
        ((c.plan.type = .paid_public ∨ c.plan.type = .paid_private) ∨
          ¬(r.status = .canceled ∨ r.status = .incomplete_expired)) := by
  unfold Customer.consideredSubs
  by_cases hp : c.plan.type = .paid_public ∨ c.plan.type = .paid_private
  · simp [hp, (List.perm_insertionSort createdDesc _).mem_iff]
  · simp [hp, List.mem_filter, (List.perm_insertionSort createdDesc _).mem_iff]

/-- When some considered record is active, resolution returns an active
record that is most recently created among all considered active records. -/
theorem subscription_finds_active {subs : List StripeSubscription}
    {c : Customer}
    (hex : ∃ r ∈ Customer.consideredSubs subs c, r.status = .active) :
    ∃ r, Customer.subscription subs c = some r ∧
      r ∈ Customer.consideredSubs subs c ∧ r.status = .active ∧
      ∀ r' ∈ Customer.consideredSubs subs c, r'.status = .active →
        r'.created ≤ r.created := by
  obtain ⟨r0, hr0, hr0a⟩ := hex
  cases hfa : (Customer.consideredSubs subs c).find? (fun s => s.status = .active) with
  | none =>
    rw [List.find?_eq_none] at hfa
    exact absurd (by simp [hr0a]) (hfa r0 hr0)
  | some r =>
    obtain ⟨hm, hp, hmax⟩ := sorted_find?_max (consideredSubs_sorted subs c) hfa
    refine ⟨r, ?_, hm, by simpa using hp, ?_⟩
    · simp only [Customer.subscription, hfa]
    · intro r' hr' ha'
      exact hmax r' hr' (by simp [ha'])

/-- When no considered record is active but some is past-due, resolution
returns a past-due record most recently created among past-due ones. -/
theorem subscription_finds_past_due {subs : List StripeSubscription}
    {c : Customer}
    (hna : ∀ r ∈ Customer.consideredSubs subs c, r.status ≠ .active)
    (hex : ∃ r ∈ Customer.consideredSubs subs c, r.status = .past_due) :
    ∃ r, Customer.subscription subs c = some r ∧
      r ∈ Customer.consideredSubs subs c ∧ r.status = .past_due ∧
      ∀ r' ∈ Customer.consideredSubs subs c, r'.status = .past_due →
        r'.created ≤ r.created := by
  obtain ⟨r0, hr0, hr0p⟩ := hex
  have hfa : (Customer.consideredSubs subs c).find? (fun s => s.status = .active) = none := by
    rw [List.find?_eq_none]
    intro x hx
    simp [hna x hx]
  cases hfp : (Customer.consideredSubs subs c).find? (fun s => s.status = .past_due) with
  | none =>
    rw [List.find?_eq_none] at hfp
    exact absurd (by simp [hr0p]) (hfp r0 hr0)
  | some r =>
    obtain ⟨hm, hp, hmax⟩ := sorted_find?_max (consideredSubs_sorted subs c) hfp
    refine ⟨r, ?_, hm, by simpa using hp, ?_⟩
    · simp only [Customer.subscription, hfa, hfp]
    · intro r' hr' hp'
      exact hmax r' hr' (by simp [hp'])

/-- When no considered record is active or past-due, resolution returns the
most recently created considered record, if any. -/
theorem subscription_most_recent {subs : List StripeSubscription}
    {c : Customer}
    (hns : ∀ r ∈ Customer.consideredSubs subs c,
      r.status ≠ .active ∧ r.status ≠ .past_due)
    (hne : Customer.consideredSubs subs c ≠ []) :
    ∃ r, Customer.subscription subs c = some r ∧
      r ∈ Customer.consideredSubs subs c ∧
      ∀ r' ∈ Customer.consideredSubs subs c, r'.created ≤ r.created := by
  have hfa : (Customer.consideredSubs subs c).find? (fun s => s.status = .active) = none := by
    rw [List.find?_eq_none]
    intro x hx
    simp [(hns x hx).1]
  have hfp : (Customer.consideredSubs subs c).find? (fun s => s.status = .past_due) = none := by
    rw [List.find?_eq_none]
    intro x hx
    simp [(hns x hx).2]
  cases hh : (Customer.consideredSubs subs c).head? with
  | none => exact absurd (List.head?_eq_none_iff.mp hh) hne
  | some r =>
    obtain ⟨hm, hmax⟩ := sorted_head?_max (consideredSubs_sorted subs c) hh
    refine ⟨r, ?_, hm, hmax⟩
    simp only [Customer.subscription, hfa, hfp, hh]

/-- On a non-paid plan, only canceled/incomplete-expired records of the
customer exist → resolution returns `none`. -/
theorem subscription_none_of_all_excluded {subs : List StripeSubscription}
    {c : Customer}
    (hnp : ¬(c.plan.type = .paid_public ∨ c.plan.type = .paid_private))
    (hall : ∀ r ∈ Customer.subscriptionSet subs c,
      r.status = .canceled ∨ r.status = .incomplete_expired) :
    Customer.subscription subs c = none := by
  have hcs : Customer.consideredSubs subs c = [] := by
    rw [List.eq_nil_iff_forall_not_mem]
    intro r hr
    rcases mem_consideredSubs.mp hr with ⟨hmem, hp | hok⟩
    · exact hnp hp
    · exact hok (hall r hmem)
  simp [Customer.subscription, hcs]

/-- With exactly two records, one active and one past-due, resolution
returns the active one. -/
theorem subscription_two_records (c : Customer) (r1 r2 : StripeSubscription)
    (h1c : r1.customer = some c.pk) (h2c : r2.customer = some c.pk)
    (h1a : r1.status = .active) (h2p : r2.status = .past_due) :
    Customer.subscription [r1, r2] c = some r1 := by
  have h1mem : r1 ∈ Customer.consideredSubs [r1, r2] c := by
    refine mem_consideredSubs.mpr ⟨?_, Or.inr (by simp [h1a])⟩
    simp [Customer.subscriptionSet, h1c]
  obtain ⟨r, heq, hm, ha, -⟩ := subscription_finds_active ⟨r1, h1mem, h1a⟩
  have hsub : r ∈ Customer.subscriptionSet [r1, r2] c := (mem_consideredSubs.mp hm).1
  have : r = r1 := by
    have hr12 : r = r1 ∨ r = r2 := by
      have := List.mem_filter.mp hsub
      simpa using this.1
    rcases hr12 with h | h
    · exact h
    · subst h; rw [ha] at h2p; cases h2p
  subst this
  exact heq

/-- C3: `Customer.subscription` resolves by priority Active > PastDue >
most-recently-created, picking the most recently created record within the
winning tier; on a non-paid plan canceled/incomplete-expired records are
excluded entirely (so only such records yield `none`); and with exactly two
records, one Active and one PastDue created earlier, the Active one wins. -/
theorem C3_subscription_resolution (subs : List StripeSubscription) (c : Customer) :
    ((∃ r ∈ Customer.consideredSubs subs c, r.status = .active) →
      ∃ r, Customer.subscription subs c = some r ∧
        r ∈ Customer.consideredSubs subs c ∧ r.status = .active ∧
        ∀ r' ∈ Customer.consideredSubs subs c, r'.status = .active →
          r'.created ≤ r.created) ∧
    ((∀ r ∈ Customer.consideredSubs subs c, r.status ≠ .active) →
      (∃ r ∈ Customer.consideredSubs subs c, r.status = .past_due) →
      ∃ r, Customer.subscription subs c = some r ∧
        r ∈ Customer.consideredSubs subs c ∧ r.status = .past_due ∧
        ∀ r' ∈ Customer.consideredSubs subs c, r'.status = .past_due →
          r'.created ≤ r.created) ∧
    ((∀ r ∈ Customer.consideredSubs subs c,
        r.status ≠ .active ∧ r.status ≠ .past_due) →
      Customer.consideredSubs subs c ≠ [] →
      ∃ r, Customer.subscription subs c = some r ∧
        r ∈ Customer.consideredSubs subs c ∧
        ∀ r' ∈ Customer.consideredSubs subs c, r'.created ≤ r.created) ∧
    (¬(c.plan.type = .paid_public ∨ c.plan.type = .paid_private) →
      (∀ r ∈ Customer.consideredSubs subs c,
        r.status ≠ .canceled ∧ r.status ≠ .incomplete_expired) ∧
      ((∀ r ∈ Customer.subscriptionSet subs c,
          r.status = .canceled ∨ r.status = .incomplete_expired) →
        Customer.subscription subs c = none)) ∧
    (∀ r1 r2 : StripeSubscription, subs = [r1, r2] →
      r1.customer = some c.pk → r2.customer = some c.pk →
      r1.status = .active → r2.status = .past_due → r2.created ≤ r1.created →
      Customer.subscription subs c = some r1) := by
  refine ⟨subscription_finds_active, subscription_finds_past_due,
    subscription_most_recent, ?_, ?_⟩
  · intro hnp
    refine ⟨?_, subscription_none_of_all_excluded hnp⟩
    intro r hr
    rcases mem_consideredSubs.mp hr with ⟨-, hp | hok⟩
    · exact absurd hp hnp
    · exact ⟨fun h => hok (Or.inl h), fun h => hok (Or.inr h)⟩
  · intro r1 r2 hs h1c h2c h1a h2p _
    subst hs
    exact subscription_two_records c r1 r2 h1c h2c h1a h2p

/-- C3 witness: concrete two-record resolution through the claim theorem. -/
theorem C3_subscription_resolution_witness :
    Customer.subscription [subActiveCancelEx, subPastDueEx] custPaidEx =
      some subActiveCancelEx :=
  (C3_subscription_resolution [subActiveCancelEx, subPastDueEx] custPaidEx).2.2.2.2
    subActiveCancelEx subPastDueEx rfl rfl rfl rfl rfl (by decide)

/-- Python/Django exceptions surfaced by the embedded operations. -/
inductive PyErr where
  | doesNotExist (model : String)
  | multipleObjectsReturned (model : String)
  | keyError (key : String)
  | attributeError (attr : String)
  | signatureVerificationFailed
  | stripeError (msg : String)
deriving DecidableEq, Repr

/-- Django's `Model.objects.get(...)`: the unique row matching the lookup,
`DoesNotExist` on zero matches, `MultipleObjectsReturned` on several. -/
def getUnique {α : Type} (model : String) (p : α → Bool) (xs : List α) :
    Except PyErr α :=
  match xs.filter p with
  | [] => .error (.doesNotExist model)
  | [x] => .ok x
  | _ => .error (.multipleObjectsReturned model)

/-- The `Limit` model (`billing/models.py`). -/
structure Limit where
  id : Nat
  name : String
  default : Int
deriving DecidableEq, Repr

/-- The `PlanLimit` model (`billing/models.py`); `plan` and `limit` hold the
foreign keys' primary keys. -/
structure PlanLimit where
  plan : Nat
  limit : Nat
  value : Int
deriving DecidableEq, Repr

/-- The effective-plan resolution opening `Customer.get_limit`
(`billing/models.py`): substitute the FreeDefault plan when the period has
lapsed, or when the plan is paid and `current_period_end` is null. -/
def Customer.effectivePlan (now : Nat) (plans : List Plan) (c : Customer) :
    Except PyErr Plan :=
  if ∃ t, c.current_period_end = some t ∧ t < now then
    getUnique "Plan" (fun p => p.type = .free_default) plans
  else if c.current_period_end = none ∧
      (c.plan.type = .paid_public ∨ c.plan.type = .paid_private) then
    getUnique "Plan" (fun p => p.type = .free_default) plans
  else .ok c.plan

/-- `plan.planlimit_set.filter(limit__name=name).first()`: the override row
of this plan joined to a `Limit` row carrying the looked-up name. -/
def findPlanLimit (limits : List Limit) (planlimits : List PlanLimit)
    (p : Plan) (name : String) : Option PlanLimit :=
  planlimits.find? (fun pl => pl.plan = p.id ∧
    ∃ l ∈ limits, l.id = pl.limit ∧ l.name = name)

/-- `Customer.get_limit` (`billing/models.py`): effective-plan override if
present, else the `Limit`'s global default, else `Limit.DoesNotExist`. -/
def Customer.get_limit (now : Nat) (plans : List Plan) (limits : List Limit)
    (planlimits : List PlanLimit) (c : Customer) (name : String) :
    Except PyErr Int :=
  match Customer.effectivePlan now plans c with
  | .error e => .error e
  | .ok plan =>
    match findPlanLimit limits planlimits plan name with
    | some pl => .ok pl.value
    | none =>
      match getUnique "Limit" (fun l => l.name = name) limits with
      | .error e => .error e
      | .ok l => .ok l.default

/-- C8: `get_limit` resolves the effective plan (FreeDefault when the period
lapsed or a paid plan has no period end), returns the `PlanLimit` override
for that plan when one exists, else the `Limit`'s global default, and
raises `Limit.DoesNotExist` exactly when no `Limit` with the name exists. -/
theorem C8_get_limit_resolution
    (now : Nat) (plans : List Plan) (limits : List Limit)
    (planlimits : List PlanLimit) (c : Customer) (name : String) (fd : Plan)
    (hfd : plans.filter (fun p => p.type = .free_default) = [fd])
    (huniq : (limits.filter (fun l => l.name = name)).length ≤ 1) :
    (((∃ t, c.current_period_end = some t ∧ t < now) ∨
        (c.current_period_end = none ∧
          (c.plan.type = .paid_public ∨ c.plan.type = .paid_private))) →
      Customer.effectivePlan now plans c = .ok fd) ∧
    ((¬(∃ t, c.current_period_end = some t ∧ t < now) ∧
        ¬(c.current_period_end = none ∧
          (c.plan.type = .paid_public ∨ c.plan.type = .paid_private))) →
      Customer.effectivePlan now plans c = .ok c.plan) ∧
    (∀ p : Plan, Customer.effectivePlan now plans c = .ok p →
      (∀ pl, findPlanLimit limits planlimits p name = some pl →
        Customer.get_limit now plans limits planlimits c name = .ok pl.value) ∧
      (findPlanLimit limits planlimits p name = none →
        ∀ l ∈ limits, l.name = name →
          Customer.get_limit now plans limits planlimits c name = .ok l.default)) ∧
    (Customer.get_limit now plans limits planlimits c name =
        .error (.doesNotExist "Limit") ↔
      ∀ l ∈ limits, l.name ≠ name) := by
  have hgu : getUnique "Plan" (fun p => p.type = .free_default) plans = .ok fd := by
    unfold getUnique
    rw [hfd]
  refine ⟨?_, ?_, ?_, ?_⟩
  · rintro (h | h)
    · unfold Customer.effectivePlan
      rw [if_pos h]
      exact hgu
    · unfold Customer.effectivePlan
      by_cases h1 : ∃ t, c.current_period_end = some t ∧ t < now
      · rw [if_pos h1]; exact hgu
      · rw [if_neg h1, if_pos h]; exact hgu
  · rintro ⟨h1, h2⟩
    unfold Customer.effectivePlan
    rw [if_neg h1, if_neg h2]
  · intro p hp
    constructor
    · intro pl hpl
      simp only [Customer.get_limit, hp, hpl]
    · intro hnone l hl hname
      have hmem : l ∈ limits.filter (fun l => l.name = name) :=
        List.mem_filter.mpr ⟨hl, by simp [hname]⟩
      have hfl : limits.filter (fun l => l.name = name) = [l] := by
        cases hflt : limits.filter (fun l => l.name = name) with
        | nil => rw [hflt] at hmem; cases hmem
        | cons x xs =>
          cases xs with
          | nil =>
            rw [hflt] at hmem
            rcases List.mem_singleton.mp hmem with h
            rw [h]
          | cons y ys => rw [hflt] at huniq; simp at huniq
      have hget : getUnique "Limit" (fun l => l.name = name) limits = .ok l := by
        unfold getUnique
        rw [hfl]
      simp only [Customer.get_limit, hp, hnone, hget]
  · have heff : ∃ p, Customer.effectivePlan now plans c = .ok p := by
      unfold Customer.effectivePlan
      split
      · exact ⟨fd, hgu⟩
      · split
        · exact ⟨fd, hgu⟩
        · exact ⟨c.plan, rfl⟩
    obtain ⟨p, hp⟩ := heff
    constructor
    · intro herr l hl hname
      simp only [Customer.get_limit, hp] at herr
      cases hov : findPlanLimit limits planlimits p name with
      | some pl => rw [hov] at herr; cases herr
      | none =>
        rw [hov] at herr
        have hmem : l ∈ limits.filter (fun l => l.name = name) :=
          List.mem_filter.mpr ⟨hl, by simp [hname]⟩
        cases hflt : limits.filter (fun l => l.name = name) with
        | nil => rw [hflt] at hmem; cases hmem
        | cons x xs =>
          cases xs with
          | nil =>
            have hget : getUnique "Limit" (fun l => l.name = name) limits = .ok x := by
              unfold getUnique
              rw [hflt]
            rw [hget] at herr
            cases herr
          | cons y ys => rw [hflt] at huniq; simp at huniq
    · intro hnone
      have hov : findPlanLimit limits planlimits p name = none := by
        rw [findPlanLimit, List.find?_eq_none]
        intro pl _hpl
        simp only [decide_eq_true_eq, not_and]
        rintro - ⟨l, hl, -, hname⟩
        exact hnone l hl hname
      have hflt : limits.filter (fun l => l.name = name) = [] := by
        rw [List.filter_eq_nil_iff]
        intro l hl
        simp [hnone l hl]
      have hget : getUnique "Limit" (fun l => l.name = name) limits =
          .error (.doesNotExist "Limit") := by
        unfold getUnique
        rw [hflt]
      simp only [Customer.get_limit, hp, hov, hget]

/-- Concrete catalog for the `get_limit` witness. -/
def limitEx : Limit := ⟨1, "max_widgets", 5⟩

def planLimitEx : PlanLimit := ⟨2, 1, 50⟩

/-- C8 witness: an expired paid customer resolves to the FreeDefault plan
and picks up its override value. -/
theorem C8_get_limit_resolution_witness :
    Customer.get_limit 20 [planFreeEx, planPaidEx] [limitEx] [planLimitEx]
      custPaidEx "max_widgets" = .ok 50 :=
  ((C8_get_limit_resolution 20 [planFreeEx, planPaidEx] [limitEx] [planLimitEx]
      custPaidEx "max_widgets" planFreeEx rfl (by decide)).2.2.1
    planFreeEx rfl).1 planLimitEx rfl

/-- `StripeSubscription.sync_to_customer` (`billing/models.py`): an active
record copies its plan (looked up by `price_id`) and period end onto the
customer; a canceled/incomplete-expired record — and, for consistency, an
incomplete one — downgrades the customer to FreeDefault with no period. -/
def StripeSubscription.sync_to_customer (plans : List Plan)
    (s : StripeSubscription) (c : Customer) : Except PyErr Customer := do
  let c1 ←
    if s.status = .active then do
      let plan ← getUnique "Plan" (fun p => p.price_id = some s.price_id) plans
      pure { c with plan := plan, current_period_end := some s.current_period_end }
    else pure c
  let c2 ←
    if s.status = .canceled ∨ s.status = .incomplete_expired then do
      let plan ← getUnique "Plan" (fun p => p.type = .free_default) plans
      pure { c1 with plan := plan, current_period_end := none }
    else pure c1
  if s.status = .incomplete then do
    let plan ← getUnique "Plan" (fun p => p.type = .free_default) plans
    pure { c2 with plan := plan, current_period_end := none }
  else pure c2

/-- Modelled from the spec: the event-processor step that applies a
subscription record to the customer profile.  The processor revision that
performs this call is not among the checked-in sources (only its tests
are); per §4.2 of the spec the record is "Only applied when
`record == resolveCurrent(profile)` — i.e., updates from a non-canonical
duplicate subscription must not clobber the profile". -/
def applyRecordToProfile (plans : List Plan) (subs : List StripeSubscription)
    (s : StripeSubscription) (c : Customer) : Except PyErr Customer :=
  if Customer.subscription subs c = some s then
    StripeSubscription.sync_to_customer plans s c
  else .ok c

/-- C2: applying a non-canonical subscription record to a profile leaves the
profile's plan and `current_period_end` unchanged. -/
theorem C2_noncanonical_never_clobbers
    (plans : List Plan) (subs : List StripeSubscription)
    (s : StripeSubscription) (c : Customer)
    (href : s.customer = some c.pk)
    (hnc : Customer.subscription subs c ≠ some s) :
    ∃ c', applyRecordToProfile plans subs s c = .ok c' ∧
      c'.plan = c.plan ∧ c'.current_period_end = c.current_period_end := by
  refine ⟨c, ?_, rfl, rfl⟩
  unfold applyRecordToProfile
  rw [if_neg hnc]

/-- C2 witness: the non-canonical past-due duplicate of a paying customer
does not touch the profile. -/
theorem C2_noncanonical_never_clobbers_witness :
    ∃ c', applyRecordToProfile [planFreeEx, planPaidEx]
        [subActiveCancelEx, subPastDueEx] subPastDueEx custPaidEx = .ok c' ∧
      c'.plan = custPaidEx.plan ∧
      c'.current_period_end = custPaidEx.current_period_end :=
  C2_noncanonical_never_clobbers [planFreeEx, planPaidEx]
    [subActiveCancelEx, subPastDueEx] subPastDueEx custPaidEx rfl (by decide)

/-- A parsed JSON value (the result of Python's `json.loads`). -/
inductive Json where
  | null
  | bool (b : Bool)
  | num (n : Int)
  | str (s : String)
  | arr (items : List Json)
  | obj (fields : List (String × Json))

/-- Python's `x is True` / `x is False` on an optional JSON value. -/
def Json.isBool (o : Option Json) (b : Bool) : Bool :=
  match o with
  | some (.bool x) => x == b
  | _ => false

/-- Python's `x == "s"` on an optional JSON value. -/
def Json.isStr (o : Option Json) (s : String) : Bool :=
  match o with
  | some (.str x) => x == s
  | _ => false

/-- Key lookup in a JSON object / Python dict. -/
def Json.lookup (fields : List (String × Json)) (k : String) : Option Json :=
  (fields.find? (fun p => p.1 = k)).map (fun p => p.2)

/-- `payload[k]` on a dict whose caller has checked key presence. -/
def Json.get (fields : List (String × Json)) (k : String) : Json :=
  (Json.lookup fields k).getD .null

/-- `StripeEvent.Status` choices (`billing/models.py`). -/
inductive EventStatus where
  | new
  | pending
  | processed
  | ignored
  | error
deriving DecidableEq, Repr

/-- A `StripeEvent` ledger row as created by the webhook view
(`billing/models.py`): the row stores the raw ids from the payload, the
verbatim body, the string-valued headers and a processing status. -/
structure StripeEventRow where
  event_id : Json
  payload_type : Json
  body : String
  headers : List (String × Json)
  status : EventStatus

/-- `stripe_webhook_view` (`billing/views/webhook.py`).  `parsed` is the
outcome of `json.loads(request.body)` (`none` = `JSONDecodeError`).  A
payload that is not a dict or lacks `"type"`/`"id"` is rejected with 400;
otherwise a ledger row with status `new` is created and the processing
task enqueued (asynchronous, so it leaves the ledger untouched here), and
201 is returned. -/
def stripe_webhook_view (events : List StripeEventRow) (rawBody : String)
    (headers : List (String × Json)) (parsed : Option Json) :
    List StripeEventRow × Nat :=
  match parsed with
  | none => (events, 400)
  | some payload =>
    match payload with
    | .obj fields =>
      if (Json.lookup fields "type").isSome ∧ (Json.lookup fields "id").isSome then
        let kept := headers.filter (fun p =>
          match p.2 with
          | .str _ => true
          | _ => false)
        (events ++
          [⟨Json.get fields "id", Json.get fields "type", rawBody, kept, .new⟩],
          201)
      else (events, 400)
    | _ => (events, 400)

/-- C10: the webhook view appends exactly one ledger row with status `new`
iff the body parses as a JSON object holding both `"id"` and `"type"`;
any other input gets a 400 response and leaves the ledger unchanged. -/
theorem C10_webhook_ingest (events : List StripeEventRow) (rawBody : String)
    (headers : List (String × Json)) (parsed : Option Json) :
    ((∃ fields, parsed = some (.obj fields) ∧
        (Json.lookup fields "id").isSome ∧ (Json.lookup fields "type").isSome) →
      ∃ row, stripe_webhook_view events rawBody headers parsed =
          (events ++ [row], 201) ∧ row.status = .new) ∧
    (¬(∃ fields, parsed = some (.obj fields) ∧
        (Json.lookup fields "id").isSome ∧ (Json.lookup fields "type").isSome) →
      stripe_webhook_view events rawBody headers parsed = (events, 400)) := by
  constructor
  · rintro ⟨fields, hp, hid, hty⟩
    subst hp
    refine ⟨⟨Json.get fields "id", Json.get fields "type", rawBody,
      headers.filter (fun p =>
        match p.2 with
        | .str _ => true
        | _ => false), .new⟩, ?_, rfl⟩
    simp only [stripe_webhook_view]
    rw [if_pos ⟨hty, hid⟩]
  · intro hno
    match parsed with
    | none => rfl
    | some .null => rfl
    | some (.bool b) => rfl
    | some (.num n) => rfl
    | some (.str s) => rfl
    | some (.arr items) => rfl
    | some (.obj fields) =>
      simp only [stripe_webhook_view]
      rw [if_neg]
      rintro ⟨hty, hid⟩
      exact hno ⟨fields, rfl, hid, hty⟩

/-- C10 witness: a well-formed payload creates one `new` row and a
malformed body creates none. -/
theorem C10_webhook_ingest_witness :
    (∃ row, stripe_webhook_view [] "body"
        [("Host", Json.str "x")]
        (some (.obj [("id", .str "evt_1"), ("type", .str "invoice.paid")])) =
        ([row], 201) ∧ row.status = .new) ∧
    stripe_webhook_view [] "bad json" [] none = ([], 400) :=
  ⟨(C10_webhook_ingest [] "body" [("Host", Json.str "x")]
      (some (.obj [("id", .str "evt_1"), ("type", .str "invoice.paid")]))).1
      ⟨[("id", .str "evt_1"), ("type", .str "invoice.paid")], rfl,
        by decide, by decide⟩,
   (C10_webhook_ingest [] "bad json" [] none).2 (by rintro ⟨f, h, -⟩; cases h)⟩

/-- Modelled from the spec (§4.4): the semantic event types of the newer
event classifier.  The classifier revision with the payment-method branch
is not among the checked-in sources — only its tests
(`test_payment_update_active`, `test_payment_update_and_retry`) are — so
the enum follows the spec's list, with the member names the tests use. -/
inductive SpecEventType where
  | new_sub
  | renew_sub
  | payment_fail
  | fix_payment_method
  | update_payment_method
  | cancel_sub
  | reactivate_sub
  | delete_sub
  | unknown
deriving DecidableEq, Repr

/-- Two key lists name the same set (Python `set(prev.keys()) == {...}`). -/
def sameKeySet (ks expected : List String) : Prop :=
  (∀ k ∈ ks, k ∈ expected) ∧ ∀ k ∈ expected, k ∈ ks

instance (ks expected : List String) : Decidable (sameKeySet ks expected) :=
  inferInstanceAs (Decidable (_ ∧ _))

/-- Modelled from the spec (§4.4): classification of a
`customer.subscription.updated` notification from the diff between
previous and current attributes.  The checked-in classifier lacks the
payment-method-reference branch; the rules here follow the spec's list in
order: cancel-flag transitions, a period/invoice-only diff, status
transitions, then a payment-method-reference change (primary
`update_payment_method` while active, primary `fix_payment_method` while
incomplete/past_due), else unknown. -/
def classifySubscriptionUpdated (status : String) (cancel_at_period_end : Bool)
    (prev : List (String × Json)) : SpecEventType × Bool :=
  if cancel_at_period_end = true ∧
      Json.isBool (Json.lookup prev "cancel_at_period_end") false then
    (.cancel_sub, true)
  else if cancel_at_period_end = false ∧
      Json.isBool (Json.lookup prev "cancel_at_period_end") true then
    (.reactivate_sub, true)
  else if sameKeySet (prev.map (fun p => p.1))
      ["current_period_end", "current_period_start", "latest_invoice"] then
    (.renew_sub, false)
  else if Json.isStr (Json.lookup prev "status") "incomplete" ∧
      status = "active" then
    (.new_sub, false)
  else if Json.isStr (Json.lookup prev "status") "active" ∧
      status = "past_due" then
    (.payment_fail, false)
  else if Json.isStr (Json.lookup prev "status") "past_due" ∧
      status = "active" then
    (.fix_payment_method, false)
  else if (Json.lookup prev "default_payment_method").isSome then
    if status = "active" then (.update_payment_method, true)
    else if status = "incomplete" ∨ status = "past_due" then
      (.fix_payment_method, true)
    else (.unknown, false)
  else (.unknown, false)

/-- Modelled from the spec (§4.5): effect application for a classified
subscription-update; a primary `fix_payment_method` event calls the
external retry-latest-open-invoice operation exactly once, every other
outcome not at all. -/
def invoiceRetryCalls (t : SpecEventType) (primary : Bool) : Nat :=
  if t = .fix_payment_method ∧ primary = true then 1 else 0

/-- C6: a subscription-updated diff touching only the payment-method
reference classifies as primary `update_payment_method` while the
subscription is active, and as primary `fix_payment_method` while it is
incomplete or past_due — in which case effect application performs exactly
one invoice-retry call. -/
theorem C6_payment_method_change_classification
    (status : String) (cancel_at_period_end : Bool)
    (prev : List (String × Json)) (j : Json)
    (hprev : prev = [("default_payment_method", j)]) :
    (status = "active" →
      classifySubscriptionUpdated status cancel_at_period_end prev =
        (.update_payment_method, true)) ∧
    ((status = "incomplete" ∨ status = "past_due") →
      classifySubscriptionUpdated status cancel_at_period_end prev =
        (.fix_payment_method, true) ∧
      invoiceRetryCalls
        (classifySubscriptionUpdated status cancel_at_period_end prev).1
        (classifySubscriptionUpdated status cancel_at_period_end prev).2 = 1) := by
  subst hprev
  constructor
  · intro hst
    subst hst
    simp [classifySubscriptionUpdated, Json.lookup, sameKeySet, Json.isBool, Json.isStr]
  · intro hst
    have hcls : classifySubscriptionUpdated status cancel_at_period_end
        [("default_payment_method", j)] = (.fix_payment_method, true) := by
      rcases hst with h | h <;> subst h <;>
        simp [classifySubscriptionUpdated, Json.lookup, sameKeySet, Json.isBool, Json.isStr]
    exact ⟨hcls, by rw [hcls]; rfl⟩

/-- C6 witness: the concrete past-due scenario from the spec fires the
retry exactly once. -/
theorem C6_payment_method_change_classification_witness :
    classifySubscriptionUpdated "past_due" false
        [("default_payment_method", Json.str "pm_1")] =
      (.fix_payment_method, true) ∧
    invoiceRetryCalls
      (classifySubscriptionUpdated "past_due" false
        [("default_payment_method", Json.str "pm_1")]).1
      (classifySubscriptionUpdated "past_due" false
        [("default_payment_method", Json.str "pm_1")]).2 = 1 :=
  (C6_payment_method_change_classification "past_due" false
    [("default_payment_method", Json.str "pm_1")] (Json.str "pm_1") rfl).2
    (Or.inr rfl)

end Billing

namespace Billing.Tasks

/-!
Embedding of `billing/tasks.py` (the checked-in revision): the webhook
event classifier `_preprocess_payload_type`, the extractors
`_preprocess_type_info` / `_preprocess_customer`, `_integrity_checks`, and
the `process_stripe_event` pipeline.  This revision works on the `Customer`
model generation carrying `payment_state` and `subscription_id` fields
(still referenced by `billing/factories.py`, `billing/serializers.py` and
`billing/views.py`); the `StripeEvent` generation it uses carries `type`,
`primary` and `info` columns.  Python exceptions are `Except` errors
carrying the pipeline state at the raise point.
-/

/-- `Customer.PaymentState` choices of the customer-model generation used
by `billing/tasks.py` (see `billing/factories.py`, `billing/views.py`). -/
inductive PaymentState where
  | off
  | ok
  | requires_payment_method
deriving DecidableEq, Repr

/-- The `Customer` model generation used by `billing/tasks.py`.  The
one-to-one user is identified with the customer's primary key, and
`email` stands for `user.email`. -/
structure Customer where
  pk : Nat
  email : String
  customer_id : Option String
  subscription_id : Option String
  plan : Plan
  current_period_end : Option Nat
  payment_state : PaymentState
deriving DecidableEq, Repr

/-- `StripeEvent.Type` of the event-model generation used by
`billing/tasks.py` (`EVENT_TYPE` there). -/
inductive EventType where
  | unknown
  | new_sub
  | renew_sub
  | payment_fail
  | payment_fix
  | cancel_sub
  | reactivate_sub
  | delete_sub
deriving DecidableEq, Repr

/-- The fields of `payload["data"]["object"]` read by the pipeline; a
`none` field stands for an absent key (access raises `KeyError`).
`lines_plan_id` and `lines_period_end` stand for
`data_object["lines"]["data"][0]["plan"]["id"]` and
`...["period"]["end"]`. -/
structure DataObject where
  billing_reason : Option String
  customer : Option String
  subscription : Option String
  id : Option String
  status : Option String
  cancel_at_period_end : Option Bool
  lines_plan_id : Option String
  lines_period_end : Option Nat

/-- A parsed webhook body: its `type`, `data.object`, and the optional
`data.previous_attributes` dict. -/
structure Payload where
  ptype : String
  dataObject : DataObject
  previousAttributes : Option (List (String × Json))

/-- The structured extraction stored on the event by
`_preprocess_type_info`: nothing for unrecognized payload types, the
invoice fields for `invoice.*`, the subscription fields for
`customer.subscription.*`. -/
inductive Info where
  | empty
  | invoice (customer_id subscription_id billing_reason price_id : String)
      (period_end_ts : Nat)
  | sub (customer_id subscription_id subscription_status : String)
      (cancel_at_period_end : Bool)

/-- `event.info["customer_id"]`. -/
def Info.customerId : Info → Except PyErr String
  | .empty => .error (.keyError "customer_id")
  | .invoice cid _ _ _ _ => .ok cid
  | .sub cid _ _ _ => .ok cid

/-- `event.info["subscription_id"]`. -/
def Info.subscriptionId : Info → Except PyErr String
  | .empty => .error (.keyError "subscription_id")
  | .invoice _ sid _ _ _ => .ok sid
  | .sub _ sid _ _ => .ok sid

/-- `event.info["price_id"]` (set only for invoice events). -/
def Info.priceId : Info → Except PyErr String
  | .invoice _ _ _ pid _ => .ok pid
  | _ => .error (.keyError "price_id")

/-- `event.info["period_end_ts"]` (set only for invoice events). -/
def Info.periodEndTs : Info → Except PyErr Nat
  | .invoice _ _ _ _ ts => .ok ts
  | _ => .error (.keyError "period_end_ts")

/-- The `StripeEvent` model generation used by `billing/tasks.py`.  Only
the columns the pipeline reads or writes are embedded; `body` holds the
parsed payload (parsing is outside the pipeline). -/
structure StripeEvent where
  pk : Nat
  payload_type : String
  body : Payload
  type : EventType
  primary : Bool
  info : Info
  note : String
  status : EventStatus
  user : Option Nat

/-- The database visible to the pipeline. -/
structure Db where
  plans : List Plan
  customers : List Customer
  events : List StripeEvent

/-- `customer.save()`: overwrite the row with this primary key. -/
def saveC (cs : List Customer) (c : Customer) : List Customer :=
  cs.map (fun x => if x.pk = c.pk then c else x)

def saveCustomer (db : Db) (c : Customer) : Db :=
  { db with customers := saveC db.customers c }

/-- `event.save()`: overwrite the row with this primary key. -/
def saveEvent (db : Db) (e : StripeEvent) : Db :=
  { db with events := db.events.map (fun x => if x.pk = e.pk then e else x) }

/-- The ledger row the webhook view creates for an incoming payload
(status `new`, everything else at the model defaults). -/
def mkEvent (pk : Nat) (p : Payload) : StripeEvent :=
  { pk := pk, payload_type := p.ptype, body := p, type := .unknown,
    primary := false, info := .empty, note := "", status := .new,
    user := none }

def addEvent (db : Db) (e : StripeEvent) : Db :=
  { db with events := db.events ++ [e] }

/-- In-flight state of one `process_stripe_event` run: the database, the
in-memory `event` instance, and the in-memory `customer` variable. -/
structure PipeState where
  db : Db
  e : StripeEvent
  customer : Option Customer

/-- `_preprocess_payload_type` (`billing/tasks.py`), as the new
`(type, primary, note)` triple of the event (the only columns it writes).
`event.type` is set to `UNKNOWN` up front; `invoice.*` classifies on
`billing_reason` (note the `payment_failed` branch's two consecutive
`if`s, so a `subscription_create` failure also gets the unrecognized
note); `customer.subscription.updated` inspects `previous_attributes`;
`customer.subscription.deleted` is always a primary `delete_sub`. -/
def classifyEvent (e : StripeEvent) : Except PyErr (EventType × Bool × String) :=
  let d := e.body.dataObject
  let r0 := (EventType.unknown, e.primary, e.note)
  if e.body.ptype = "invoice.paid" then
    match d.billing_reason with
    | none => .error (.keyError "billing_reason")
    | some br =>
      if br = "subscription_create" then .ok (.new_sub, true, r0.2.2)
      else if br = "subscription_cycle" then .ok (.renew_sub, true, r0.2.2)
      else .ok (r0.1, r0.2.1,
        "Unrecognized invoice.paid billing_reason: " ++ br ++ ".")
  else if e.body.ptype = "invoice.payment_failed" then
    match d.billing_reason with
    | none => .error (.keyError "billing_reason")
    | some br =>
      let r1 := if br = "subscription_create" then
          (EventType.payment_fail, true, r0.2.2) else r0
      if br = "subscription_cycle" then .ok (.payment_fail, true, r1.2.2)
      else .ok (r1.1, r1.2.1,
        "Unrecognized invoice.payment_failed billing_reason: " ++ br ++ ".")
  else if e.body.ptype = "customer.subscription.updated" then
    match e.body.previousAttributes with
    | none => .error (.keyError "previous_attributes")
    | some prev =>
      match d.cancel_at_period_end with
      | none => .error (.keyError "cancel_at_period_end")
      | some cape =>
        if cape = true ∧
            Json.isBool (Json.lookup prev "cancel_at_period_end") false then
          .ok (.cancel_sub, true, r0.2.2)
        else if cape = false ∧
            Json.isBool (Json.lookup prev "cancel_at_period_end") true then
          .ok (.reactivate_sub, true, r0.2.2)
        else if sameKeySet (prev.map (fun q => q.1))
            ["current_period_end", "current_period_start", "latest_invoice"] then
          .ok (.renew_sub, false, r0.2.2)
        else
          match Json.lookup prev "status" with
          | some (.str ps) =>
            if ps = "incomplete" then
              match d.status with
              | none => .error (.keyError "status")
              | some st =>
                if st = "active" then .ok (.new_sub, false, r0.2.2)
                else .ok (r0.1, r0.2.1,
                  "Unrecognized customer.subscription.updated payload")
            else if ps = "active" then
              match d.status with
              | none => .error (.keyError "status")
              | some st =>
                if st = "past_due" then .ok (.payment_fail, false, r0.2.2)
                else .ok (r0.1, r0.2.1,
                  "Unrecognized customer.subscription.updated payload")
            else if ps = "past_due" then
              match d.status with
              | none => .error (.keyError "status")
              | some st =>
                if st = "active" then .ok (.payment_fix, false, r0.2.2)
                else .ok (r0.1, r0.2.1,
                  "Unrecognized customer.subscription.updated payload")
            else .ok (r0.1, r0.2.1,
              "Unrecognized customer.subscription.updated payload")
          | _ => .ok (r0.1, r0.2.1,
              "Unrecognized customer.subscription.updated payload")
  else if e.body.ptype = "customer.subscription.deleted" then
    .ok (.delete_sub, true, r0.2.2)
  else .ok r0

/-- A Python dict access `d[key]`: `KeyError` when the key is absent. -/
def require {α : Type} (key : String) (o : Option α) : Except PyErr α :=
  match o with
  | none => .error (.keyError key)
  | some a => .ok a

/-- `_preprocess_type_info` (`billing/tasks.py`): build the `info` dict
from the data object, by payload-type prefix. -/
def extractTypeInfo (e : StripeEvent) : Except PyErr Info :=
  let d := e.body.dataObject
  if e.payload_type.startsWith "invoice." then do
    let cid ← require "customer" d.customer
    let sid ← require "subscription" d.subscription
    let br ← require "billing_reason" d.billing_reason
    let pid ← require "lines" d.lines_plan_id
    let ts ← require "lines" d.lines_period_end
    pure (.invoice cid sid br pid ts)
  else if e.payload_type.startsWith "customer.subscription." then do
    let cid ← require "customer" d.customer
    let sid ← require "id" d.id
    let st ← require "status" d.status
    let cape ← require "cancel_at_period_end" d.cancel_at_period_end
    pure (.sub cid sid st cape)
  else pure .empty

/-- Signature verification (`services.stripe_check_webhook_signature`,
called when `verify_signature` is passed and a webhook secret is
configured); `sigOk` is the verification outcome for this body. -/
def stepSignature (verifySig whSecretSet sigOk : Bool)
    (ps : PipeState) : Except (PipeState × PyErr) PipeState :=
  if verifySig ∧ whSecretSet ∧ sigOk = false then
    .error (ps, .signatureVerificationFailed)
  else .ok ps

/-- `_preprocess_payload_type` applied to the stored event: write the
classified type/primary/note and save.  On a raise, the in-memory event
has only `type = UNKNOWN` applied. -/
def stepPayloadType (ps : PipeState) : Except (PipeState × PyErr) PipeState :=
  match classifyEvent ps.e with
  | .error err => .error ({ ps with e := { ps.e with type := .unknown } }, err)
  | .ok r =>
    let e2 := { ps.e with type := r.1, primary := r.2.1, note := r.2.2 }
    .ok { ps with db := saveEvent ps.db e2, e := e2 }

/-- `_preprocess_type_info`: write `event.info` and save. -/
def stepTypeInfo (ps : PipeState) : Except (PipeState × PyErr) PipeState :=
  match extractTypeInfo ps.e with
  | .error err => .error (ps, err)
  | .ok i =>
    let e2 := { ps.e with info := i }
    .ok { ps with db := saveEvent ps.db e2, e := e2 }

/-- Tail of `_preprocess_customer` once a customer is found: link the event
to the user, save it, and persist the customer id when not yet set. -/
def linkCustomer (ps : PipeState) (cid : String) (c : Customer) : PipeState :=
  let e2 := { ps.e with user := some c.pk }
  let db2 := saveEvent ps.db e2
  if c.customer_id = none then
    let c2 := { c with customer_id := some cid }
    { db := saveCustomer db2 c2, e := e2, customer := some c2 }
  else { db := db2, e := e2, customer := some c }

/-- `_preprocess_customer` (`billing/tasks.py`): match on `customer_id`,
else retrieve the processor's customer (`emailOf` is the external
customer-id → email oracle; `none` models a processor error) and match on
email; `Customer.DoesNotExist` is tolerated for `delete_sub` (hard-deleted
user), fatal otherwise. -/
def stepCustomer (emailOf : String → Option String) (ps : PipeState) :
    Except (PipeState × PyErr) PipeState :=
  match ps.e.info.customerId with
  | .error err => .error (ps, err)
  | .ok cid =>
    match ps.db.customers.find? (fun c => c.customer_id = some cid) with
    | some c => .ok (linkCustomer ps cid c)
    | none =>
      match emailOf cid with
      | none => .error (ps, .stripeError "No such customer")
      | some em =>
        match getUnique "Customer" (fun c => c.email = em) ps.db.customers with
        | .ok c => .ok (linkCustomer ps cid c)
        | .error (.doesNotExist m) =>
          if ps.e.type = .delete_sub then .ok { ps with customer := none }
          else .error (ps, .doesNotExist m)
        | .error err => .error (ps, err)

/-- Second half of `_integrity_checks`: the `subscription_id` self-heal,
on the in-memory customer `b2` and database `db2` left by the first
half. -/
def integrityTail (ps : PipeState) (b2 : Customer) (db2 : Db) :
    Except (PipeState × PyErr) PipeState :=
  match ps.e.info.subscriptionId with
  | .error err => .error ({ ps with db := db2 }, err)
  | .ok sid =>
    if b2.subscription_id.isSome ∧ b2.subscription_id ≠ some sid then
      .ok { ps with db := saveCustomer db2 { b2 with subscription_id := some sid } }
    else .ok { ps with db := db2 }

/-- `_integrity_checks` (`billing/tasks.py`): re-fetch the customer via
`event.user` (an `AttributeError` when the event has no user) and
self-heal `customer_id` / `subscription_id` against the event's info. -/
def stepIntegrity (ps : PipeState) : Except (PipeState × PyErr) PipeState :=
  match ps.e.user with
  | none => .error (ps, .attributeError "customer")
  | some upk =>
    match ps.db.customers.find? (fun c => c.pk = upk) with
    | none => .error (ps, .doesNotExist "Customer")
    | some b =>
      match ps.e.info.customerId with
      | .error err => .error (ps, err)
      | .ok cid =>
        if b.customer_id ≠ some cid then
          integrityTail ps { b with customer_id := some cid }
            (saveCustomer ps.db { b with customer_id := some cid })
        else
          integrityTail ps b ps.db

/-- Effect application of `process_stripe_event` (`billing/tasks.py`):
non-primary events are ignored; `new_sub` is a full overwrite of
subscription id, plan (looked up by price id), period end and payment
state; `renew_sub` moves the period end; payment failures and
cancel/reactivate toggle `payment_state`; `delete_sub` downgrades to the
FreeDefault plan when a customer exists; everything else is ignored.
Mutations land on the in-memory customer; saving happens in the `finally`
step. -/
def stepEffect (ps : PipeState) : Except (PipeState × PyErr) PipeState :=
  if ps.e.primary = false then
    .ok { ps with e := { ps.e with status := .ignored } }
  else match ps.e.type with
  | .new_sub =>
    match ps.e.info.priceId with
    | .error err => .error (ps, err)
    | .ok pid =>
      match getUnique "Plan" (fun pl => pl.price_id = some pid) ps.db.plans with
      | .error err => .error (ps, err)
      | .ok plan =>
        match ps.e.info.subscriptionId with
        | .error err => .error (ps, err)
        | .ok sid =>
          match ps.customer with
          | none => .error (ps, .attributeError "subscription_id")
          | some c =>
            let c1 := { c with subscription_id := some sid, plan := plan }
            match ps.e.info.periodEndTs with
            | .error err => .error ({ ps with customer := some c1 }, err)
            | .ok ts =>
              let c2 := { c1 with current_period_end := some ts, payment_state := PaymentState.ok }
              .ok { ps with customer := some c2, e := { ps.e with status := .processed } }
  | .renew_sub =>
    match ps.e.info.periodEndTs with
    | .error err => .error (ps, err)
    | .ok ts =>
      match ps.customer with
      | none => .error (ps, .attributeError "current_period_end")
      | some c =>
        let c2 := { c with current_period_end := some ts }
        .ok { ps with customer := some c2, e := { ps.e with status := .processed } }
  | .payment_fail =>
    match ps.customer with
    | none => .error (ps, .attributeError "payment_state")
    | some c =>
      let c2 := { c with payment_state := PaymentState.requires_payment_method }
      .ok { ps with customer := some c2, e := { ps.e with status := .processed } }
  | .cancel_sub =>
    match ps.customer with
    | none => .error (ps, .attributeError "payment_state")
    | some c =>
      let c2 := { c with payment_state := PaymentState.off }
      .ok { ps with customer := some c2, e := { ps.e with status := .processed } }
  | .reactivate_sub =>
    match ps.customer with
    | none => .error (ps, .attributeError "payment_state")
    | some c =>
      let c2 := { c with payment_state := PaymentState.ok }
      .ok { ps with customer := some c2, e := { ps.e with status := .processed } }
  | .delete_sub =>
    match ps.customer with
    | none => .ok { ps with e := { ps.e with status := .processed } }
    | some c =>
      let c1 := { c with payment_state := .off }
      match getUnique "Plan" (fun pl => pl.type = .free_default) ps.db.plans with
      | .error err => .error ({ ps with customer := some c1 }, err)
      | .ok fd =>
        let c2 := { c1 with plan := fd, current_period_end := none, subscription_id := none }
        .ok { ps with customer := some c2, e := { ps.e with status := .processed } }
  | _ =>
    .ok { ps with e := { ps.e with status := .ignored } }

/-- The `try` body of `process_stripe_event`: the pipeline steps in order,
each raise carrying the in-flight state for the handler. -/
def runBody (emailOf : String → Option String)
    (verifySig whSecretSet sigOk : Bool) (ps : PipeState) :
    Except (PipeState × PyErr) PipeState := do
  let ps ← stepSignature verifySig whSecretSet sigOk ps
  let ps ← stepPayloadType ps
  let ps ← stepTypeInfo ps
  let ps ← stepCustomer emailOf ps
  let ps ← stepIntegrity ps
  stepEffect ps

/-- What `traceback.format_exc()` leaves in `event.note`. -/
def pyDetail : PyErr → String
  | .doesNotExist m =>
      "Traceback (most recent call last): " ++ m ++ ".DoesNotExist"
  | .multipleObjectsReturned m =>
      "Traceback (most recent call last): " ++ m ++ ".MultipleObjectsReturned"
  | .keyError k => "Traceback (most recent call last): KeyError: " ++ k
  | .attributeError a =>
      "Traceback (most recent call last): AttributeError: " ++ a
  | .signatureVerificationFailed =>
      "Traceback (most recent call last): stripe.error.SignatureVerificationError"
  | .stripeError m =>
      "Traceback (most recent call last): stripe.error.StripeError: " ++ m

/-- The `finally` step: save the customer variable when set, then save the
event. -/
def finalize (ps : PipeState) : Db :=
  let db := match ps.customer with
    | some c => saveCustomer ps.db c
    | none => ps.db
  saveEvent db ps.e

/-- `process_stripe_event` (`billing/tasks.py`): fetch the stored event
(`DoesNotExist` escapes, it precedes the `try`), mark it `pending` and
save, run the pipeline, catch any raise into `status = error` with the
detail in `note`, and persist customer and event in the `finally` step. -/
def processStripeEvent (emailOf : String → Option String)
    (verifySig whSecretSet sigOk : Bool) (db : Db) (event_id : Nat) :
    Except PyErr Db :=
  match getUnique "StripeEvent" (fun ev => ev.pk = event_id) db.events with
  | .error err => .error err
  | .ok e0 =>
    let e1 := { e0 with status := .pending }
    let db1 := saveEvent db e1
    match runBody emailOf verifySig whSecretSet sigOk
        { db := db1, e := e1, customer := none } with
    | .ok ps => .ok (finalize ps)
    | .error (ps, err) =>
      .ok (finalize { ps with e := { ps.e with status := .error, note := pyDetail err } })

/-- Filtering commutes with a map that does not move elements across the
predicate. -/
theorem filter_map_congr {α : Type} (f : α → α) (q : α → Bool) :
    ∀ {l : List α}, (∀ x ∈ l, q (f x) = q x) →
      (l.map f).filter q = (l.filter q).map f := by
  intro l
  induction l with
  | nil => intro _; rfl
  | cons x xs ih =>
    intro h
    have hx := h x (List.mem_cons_self x xs)
    have hxs := ih (fun y hy => h y (List.mem_cons_of_mem _ hy))
    cases hq : q x with
    | true => simp [List.filter_cons, hx, hq, hxs]
    | false => simp [List.filter_cons, hx, hq, hxs]

/-- Replacing the unique row with a given primary key leaves exactly the
replacement in the filtered view. -/
theorem filter_save (l : List StripeEvent) (pkv : Nat) (w : StripeEvent)
    (h : l.filter (fun ev => ev.pk = pkv) = [w])
    (e' : StripeEvent) (hpk : e'.pk = pkv) :
    (l.map fun x => if x.pk = e'.pk then e' else x).filter
      (fun ev => ev.pk = pkv) = [e'] := by
  have hw : w.pk = pkv := by
    have hmem : w ∈ l.filter (fun ev => ev.pk = pkv) := by
      rw [h]; exact List.mem_singleton_self w
    simpa using (List.mem_filter.mp hmem).2
  rw [filter_map_congr]
  · rw [h]
    simp [hw, hpk]
  · intro x hx
    by_cases hxp : x.pk = e'.pk
    · simp [hxp, hpk]
    · simp [hxp]

/-- The invariant threading `process_stripe_event`: the in-memory event
keeps its primary key and the ledger holds exactly one row at it. -/
def EvInv (pkv : Nat) (ps : PipeState) : Prop :=
  ps.e.pk = pkv ∧ ∃ w, ps.db.events.filter (fun ev => ev.pk = pkv) = [w]

/-- The pipeline state of a step outcome, raised or not. -/
def psOf : Except (PipeState × PyErr) PipeState → PipeState
  | .ok ps => ps
  | .error (ps, _) => ps

theorem bindErr {α ε : Type} (a : ε) (k : α → Except ε α) :
    (Except.error a >>= k) = .error a := rfl

theorem bindOk {α ε : Type} (a : α) (k : α → Except ε α) :
    (Except.ok a >>= k) = k a := rfl

theorem stepSignature_inv (v w s : Bool) (pkv : Nat) (ps : PipeState)
    (h : EvInv pkv ps) : EvInv pkv (psOf (stepSignature v w s ps)) := by
  unfold stepSignature
  split
  · exact ⟨h.1, h.2⟩
  · exact ⟨h.1, h.2⟩

theorem stepPayloadType_inv (pkv : Nat) (ps : PipeState)
    (h : EvInv pkv ps) : EvInv pkv (psOf (stepPayloadType ps)) := by
  obtain ⟨w, hw⟩ := h.2
  unfold stepPayloadType
  cases hc : classifyEvent ps.e with
  | error err => exact ⟨h.1, ⟨w, hw⟩⟩
  | ok r => exact ⟨h.1, ⟨_, filter_save _ _ _ hw _ h.1⟩⟩

theorem stepTypeInfo_inv (pkv : Nat) (ps : PipeState)
    (h : EvInv pkv ps) : EvInv pkv (psOf (stepTypeInfo ps)) := by
  obtain ⟨w, hw⟩ := h.2
  unfold stepTypeInfo
  cases hc : extractTypeInfo ps.e with
  | error err => exact ⟨h.1, ⟨w, hw⟩⟩
  | ok i => exact ⟨h.1, ⟨_, filter_save _ _ _ hw _ h.1⟩⟩

theorem linkCustomer_inv (pkv : Nat) (ps : PipeState) (cid : String)
    (c : Customer) (h : EvInv pkv ps) :
    EvInv pkv (linkCustomer ps cid c) := by
  obtain ⟨w, hw⟩ := h.2
  unfold linkCustomer
  split
  · exact ⟨h.1, ⟨_, filter_save _ _ _ hw _ h.1⟩⟩
  · exact ⟨h.1, ⟨_, filter_save _ _ _ hw _ h.1⟩⟩

theorem stepCustomer_inv (emailOf : String → Option String) (pkv : Nat)
    (ps : PipeState) (h : EvInv pkv ps) :
    EvInv pkv (psOf (stepCustomer emailOf ps)) := by
  unfold stepCustomer
  repeat' split
  all_goals try exact ⟨h.1, h.2⟩
  all_goals exact linkCustomer_inv _ _ _ _ h

theorem integrityTail_inv (pkv : Nat) (ps : PipeState) (b2 : Customer)
    (db2 : Db) (h1 : ps.e.pk = pkv)
    (h2 : ∃ w, db2.events.filter (fun ev => ev.pk = pkv) = [w]) :
    EvInv pkv (psOf (integrityTail ps b2 db2)) := by
  unfold integrityTail
  repeat' split
  all_goals exact ⟨h1, h2⟩

theorem stepIntegrity_inv (pkv : Nat) (ps : PipeState)
    (h : EvInv pkv ps) : EvInv pkv (psOf (stepIntegrity ps)) := by
  unfold stepIntegrity
  repeat' split
  all_goals try exact ⟨h.1, h.2⟩
  all_goals exact integrityTail_inv pkv ps _ _ h.1 h.2

theorem stepEffect_inv (pkv : Nat) (ps : PipeState)
    (h : EvInv pkv ps) : EvInv pkv (psOf (stepEffect ps)) := by
  unfold stepEffect
  repeat' split
  all_goals exact ⟨h.1, h.2⟩

theorem runBody_inv (emailOf : String → Option String) (v w s : Bool)
    (pkv : Nat) (ps : PipeState) (h : EvInv pkv ps) :
    EvInv pkv (psOf (runBody emailOf v w s ps)) := by
  unfold runBody
  have h1 := stepSignature_inv v w s pkv ps h
  cases hs1 : stepSignature v w s ps with
  | error r => rw [bindErr]; rw [hs1] at h1; exact h1
  | ok ps1 =>
    rw [bindOk]
    rw [hs1] at h1
    have h2 := stepPayloadType_inv pkv ps1 h1
    cases hs2 : stepPayloadType ps1 with
    | error r => rw [bindErr]; rw [hs2] at h2; exact h2
    | ok ps2 =>
      rw [bindOk]
      rw [hs2] at h2
      have h3 := stepTypeInfo_inv pkv ps2 h2
      cases hs3 : stepTypeInfo ps2 with
      | error r => rw [bindErr]; rw [hs3] at h3; exact h3
      | ok ps3 =>
        rw [bindOk]
        rw [hs3] at h3
        have h4 := stepCustomer_inv emailOf pkv ps3 h3
        cases hs4 : stepCustomer emailOf ps3 with
        | error r => rw [bindErr]; rw [hs4] at h4; exact h4
        | ok ps4 =>
          rw [bindOk]
          rw [hs4] at h4
          have h5 := stepIntegrity_inv pkv ps4 h4
          cases hs5 : stepIntegrity ps4 with
          | error r => rw [bindErr]; rw [hs5] at h5; exact h5
          | ok ps5 =>
            rw [bindOk]
            rw [hs5] at h5
            exact stepEffect_inv pkv ps5 h5

/-- C7: for a stored event, `process_stripe_event` never lets a pipeline
exception escape: it always returns a database; when any pipeline step
raises, the final ledger row at the event's key carries status `error`
with the exception detail in `note`; and in every outcome the (single)
ledger row equals the in-memory event persisted by the `finally` step. -/
theorem C7_processor_catches_all
    (emailOf : String → Option String) (verifySig whSecretSet sigOk : Bool)
    (db : Db) (event_id : Nat) (e : StripeEvent)
    (hfind : db.events.filter (fun ev => ev.pk = event_id) = [e]) :
    ∃ db', processStripeEvent emailOf verifySig whSecretSet sigOk db event_id
        = .ok db' ∧
      ∃ ef, db'.events.filter (fun ev => ev.pk = event_id) = [ef] ∧
        (match runBody emailOf verifySig whSecretSet sigOk
            { db := saveEvent db { e with status := .pending },
              e := { e with status := .pending }, customer := none } with
         | .ok ps => ef = ps.e
         | .error (ps, err) =>
             ef = { ps.e with status := .error, note := pyDetail err } ∧
             ef.status = .error ∧ ef.note = pyDetail err) := by
  have hepk : e.pk = event_id := by
    have hmem : e ∈ db.events.filter (fun ev => ev.pk = event_id) := by
      rw [hfind]; exact List.mem_singleton_self e
    simpa using (List.mem_filter.mp hmem).2
  have hget : getUnique "StripeEvent" (fun ev => ev.pk = event_id) db.events
      = .ok e := by
    unfold getUnique
    rw [hfind]
  have hinv1 : EvInv event_id
      { db := saveEvent db { e with status := .pending },
        e := { e with status := .pending }, customer := none } :=
    ⟨hepk, ⟨_, filter_save _ _ _ hfind _ hepk⟩⟩
  have hrbinv := runBody_inv emailOf verifySig whSecretSet sigOk event_id _ hinv1
  cases hrb : runBody emailOf verifySig whSecretSet sigOk
      { db := saveEvent db { e with status := .pending },
        e := { e with status := .pending }, customer := none } with
  | ok ps =>
    rw [hrb] at hrbinv
    obtain ⟨w, hw⟩ := hrbinv.2
    refine ⟨finalize ps, ?_, ps.e, ?_, ?_⟩
    · simp only [processStripeEvent, hget, hrb]
    · unfold finalize
      cases ps.customer with
      | none => exact filter_save _ _ _ hw _ hrbinv.1
      | some c => exact filter_save _ _ _ hw _ hrbinv.1
    · rfl
  | error r =>
    obtain ⟨ps, err⟩ := r
    rw [hrb] at hrbinv
    obtain ⟨w, hw⟩ := hrbinv.2
    refine ⟨finalize { ps with e := { ps.e with status := .error, note := pyDetail err } },
      ?_, { ps.e with status := .error, note := pyDetail err }, ?_, ?_⟩
    · simp only [processStripeEvent, hget, hrb]
    · unfold finalize
      cases ps.customer with
      | none => exact filter_save _ _ _ hw _ hrbinv.1
      | some c => exact filter_save _ _ _ hw _ hrbinv.1
    · exact ⟨rfl, rfl, rfl⟩

/-- Concrete data for the C7 witness: a stored event with an unrecognized
payload type, whose linkage step raises `KeyError`. -/
def payloadTestEx : Payload :=
  ⟨"test", ⟨none, none, none, none, none, none, none, none⟩, none⟩

def dbTestEx : Db := ⟨[], [], [mkEvent 1 payloadTestEx]⟩

/-- C7 witness: the processor returns normally on the concrete event and
persists it. -/
theorem C7_processor_catches_all_witness :
    ∃ db', processStripeEvent (fun _ => none) true true true dbTestEx 1
        = .ok db' ∧
      ∃ ef, db'.events.filter (fun ev => ev.pk = 1) = [ef] ∧
        (match runBody (fun _ => none) true true true
            { db := saveEvent dbTestEx { mkEvent 1 payloadTestEx with status := .pending },
              e := { mkEvent 1 payloadTestEx with status := .pending },
              customer := none } with
         | .ok ps => ef = ps.e
         | .error (ps, err) =>
             ef = { ps.e with status := .error, note := pyDetail err } ∧
             ef.status = .error ∧ ef.note = pyDetail err) :=
  C7_processor_catches_all (fun _ => none) true true true dbTestEx 1
    (mkEvent 1 payloadTestEx) rfl

/-!
Replay idempotence (claim C4).  `runCustomers` is a proof-side mirror of
the pipeline's effect on the customer table alone, for one fresh ledger
row carrying payload `p`; the correspondence with `processStripeEvent` is
proved below, and idempotence is then established for `runCustomers`.
-/

/-- Effect application restricted to the customer table: `A` is the
in-memory customer variable, `cs3` the table after the integrity step;
the `finally` step saves `A` (with the effect's mutations) in every
outcome. -/
def effectC (plans : List Plan) (r : EventType × Bool × String) (i : Info)
    (A : Customer) (cs3 : List Customer) : List Customer :=
  if r.2.1 = false then saveC cs3 A
  else match r.1 with
  | .new_sub =>
    match i.priceId with
    | .error _ => saveC cs3 A
    | .ok pid =>
      match getUnique "Plan" (fun pl => pl.price_id = some pid) plans with
      | .error _ => saveC cs3 A
      | .ok plan =>
        match i.subscriptionId with
        | .error _ => saveC cs3 A
        | .ok sid =>
          match i.periodEndTs with
          | .error _ => saveC cs3 { A with subscription_id := some sid, plan := plan }
          | .ok ts => saveC cs3 { { A with subscription_id := some sid, plan := plan } with current_period_end := some ts, payment_state := PaymentState.ok }
  | .renew_sub =>
    match i.periodEndTs with
    | .error _ => saveC cs3 A
    | .ok ts => saveC cs3 { A with current_period_end := some ts }
  | .payment_fail => saveC cs3 { A with payment_state := .requires_payment_method }
  | .cancel_sub => saveC cs3 { A with payment_state := .off }
  | .reactivate_sub => saveC cs3 { A with payment_state := .ok }
  | .delete_sub =>
    match getUnique "Plan" (fun pl => pl.type = .free_default) plans with
    | .error _ => saveC cs3 { A with payment_state := .off }
    | .ok fd => saveC cs3 { { A with payment_state := PaymentState.off } with plan := fd, current_period_end := none, subscription_id := none }
  | _ => saveC cs3 A

/-- The `subscription_id` self-heal followed by effect application, on the
customer table. -/
def integC (plans : List Plan) (r : EventType × Bool × String) (i : Info)
    (A b2 : Customer) (cs2 : List Customer) : List Customer :=
  match i.subscriptionId with
  | .error _ => saveC cs2 A
  | .ok sid =>
    if b2.subscription_id.isSome ∧ b2.subscription_id ≠ some sid then
      effectC plans r i A (saveC cs2 { b2 with subscription_id := some sid })
    else effectC plans r i A cs2

/-- Integrity checks and effect on the customer table, after linkage left
the event pointing at user `upk`, the in-memory customer `A` and the
table `cs1`. -/
def afterLink (plans : List Plan) (r : EventType × Bool × String) (i : Info)
    (upk : Nat) (A : Customer) (cs1 : List Customer) : List Customer :=
  match cs1.find? (fun x => x.pk = upk) with
  | none => saveC cs1 A
  | some b =>
    match i.customerId with
    | .error _ => saveC cs1 A
    | .ok cid2 =>
      if b.customer_id ≠ some cid2 then
        integC plans r i A { b with customer_id := some cid2 }
          (saveC cs1 { b with customer_id := some cid2 })
      else integC plans r i A b cs1

/-- Linkage tail, integrity checks, and effect, on the customer table,
once the pipeline resolved customer `c`. -/
def afterResolve (plans : List Plan) (r : EventType × Bool × String)
    (i : Info) (cid : String) (c : Customer) (cs : List Customer) :
    List Customer :=
  if c.customer_id = none then
    afterLink plans r i c.pk { c with customer_id := some cid }
      (saveC cs { c with customer_id := some cid })
  else afterLink plans r i c.pk c cs

/-- Customer resolution, linkage, integrity and effect on the customer
table (everything from `_preprocess_customer` on). -/
def resolveC (emailOf : String → Option String) (plans : List Plan)
    (r : EventType × Bool × String) (i : Info) (cs : List Customer) :
    List Customer :=
  match i.customerId with
  | .error _ => cs
  | .ok cid =>
    match cs.find? (fun c => c.customer_id = some cid) with
    | some c => afterResolve plans r i cid c cs
    | none =>
      match emailOf cid with
      | none => cs
      | some em =>
        match getUnique "Customer" (fun c => c.email = em) cs with
        | .ok c => afterResolve plans r i cid c cs
        | .error _ => cs

/-- The customer table after `process_stripe_event` handles one fresh
ledger row with payload `p` (mirrors the pipeline branch for branch). -/
def runCustomers (emailOf : String → Option String) (v w s : Bool)
    (plans : List Plan) (p : Payload) (cs : List Customer) :
    List Customer :=
  if v ∧ w ∧ s = false then cs
  else
    match classifyEvent (mkEvent 0 p) with
    | .error _ => cs
    | .ok r =>
      match extractTypeInfo (mkEvent 0 p) with
      | .error _ => cs
      | .ok i => resolveC emailOf plans r i cs

/-- The pipeline state entering the `finally` step: the body's result,
with the `except` handler's status/note mutation applied on a raise. -/
def catchBody (r : Except (PipeState × PyErr) PipeState) : PipeState :=
  match r with
  | .ok ps => ps
  | .error (ps, err) =>
    { ps with e := { ps.e with status := .error, note := pyDetail err } }

/-- `process_stripe_event` in handler/finally normal form. -/
theorem process_eq (emailOf : String → Option String) (v w s : Bool)
    (db : Db) (event_id : Nat) (e : StripeEvent)
    (hget : getUnique "StripeEvent" (fun ev => ev.pk = event_id) db.events
      = .ok e) :
    processStripeEvent emailOf v w s db event_id =
      .ok (finalize (catchBody (runBody emailOf v w s
        { db := saveEvent db { e with status := .pending },
          e := { e with status := .pending }, customer := none }))) := by
  unfold processStripeEvent
  simp only [hget]
  cases hrb : runBody emailOf v w s
      { db := saveEvent db { e with status := .pending },
        e := { e with status := .pending }, customer := none } with
  | ok ps => rfl
  | error r => obtain ⟨ps, err⟩ := r; rfl

/-- Replacing rows by primary key does not change the key column. -/
theorem pkmap_save (l : List StripeEvent) (e : StripeEvent) :
    (l.map (fun x => if x.pk = e.pk then e else x)).map (fun ev => ev.pk)
      = l.map (fun ev => ev.pk) := by
  induction l with
  | nil => rfl
  | cons x xs ih =>
    by_cases hx : x.pk = e.pk
    · simp [hx, ih]
    · simp [hx, ih]

/-- Database frame facts through one run: plans unchanged and the event
key column unchanged. -/
def DbInv (plv : List Plan) (pkm : List Nat) (ps : PipeState) : Prop :=
  ps.db.plans = plv ∧ ps.db.events.map (fun ev => ev.pk) = pkm

theorem saveEvent_DbInv {plv : List Plan} {pkm : List Nat} {db : Db}
    (h : DbInv plv pkm { db := db, e := e0, customer := c0 })
    (e' : StripeEvent) :
    (saveEvent db e').plans = plv ∧
      (saveEvent db e').events.map (fun ev => ev.pk) = pkm :=
  ⟨h.1, (pkmap_save _ _).trans h.2⟩

theorem stepSignature_db (v w s : Bool) (plv : List Plan) (pkm : List Nat)
    (ps : PipeState) (h : DbInv plv pkm ps) :
    DbInv plv pkm (psOf (stepSignature v w s ps)) := by
  unfold stepSignature
  split
  · exact h
  · exact h

theorem stepPayloadType_db (plv : List Plan) (pkm : List Nat)
    (ps : PipeState) (h : DbInv plv pkm ps) :
    DbInv plv pkm (psOf (stepPayloadType ps)) := by
  unfold stepPayloadType
  cases hc : classifyEvent ps.e with
  | error err => exact h
  | ok r => exact ⟨h.1, (pkmap_save _ _).trans h.2⟩

theorem stepTypeInfo_db (plv : List Plan) (pkm : List Nat)
    (ps : PipeState) (h : DbInv plv pkm ps) :
    DbInv plv pkm (psOf (stepTypeInfo ps)) := by
  unfold stepTypeInfo
  cases hc : extractTypeInfo ps.e with
  | error err => exact h
  | ok i => exact ⟨h.1, (pkmap_save _ _).trans h.2⟩

theorem linkCustomer_db (plv : List Plan) (pkm : List Nat) (ps : PipeState)
    (cid : String) (c : Customer) (h : DbInv plv pkm ps) :
    DbInv plv pkm (linkCustomer ps cid c) := by
  unfold linkCustomer
  split
  · exact ⟨h.1, (pkmap_save _ _).trans h.2⟩
  · exact ⟨h.1, (pkmap_save _ _).trans h.2⟩

theorem stepCustomer_db (emailOf : String → Option String) (plv : List Plan)
    (pkm : List Nat) (ps : PipeState) (h : DbInv plv pkm ps) :
    DbInv plv pkm (psOf (stepCustomer emailOf ps)) := by
  unfold stepCustomer
  repeat' split
  all_goals try exact h
  all_goals exact linkCustomer_db _ _ _ _ _ h

theorem integrityTail_db (plv : List Plan) (pkm : List Nat) (ps : PipeState)
    (b2 : Customer) (db2 : Db) (h1 : db2.plans = plv)
    (h2 : db2.events.map (fun ev => ev.pk) = pkm) :
    DbInv plv pkm (psOf (integrityTail ps b2 db2)) := by
  unfold integrityTail
  repeat' split
  all_goals exact ⟨h1, h2⟩

theorem stepIntegrity_db (plv : List Plan) (pkm : List Nat) (ps : PipeState)
    (h : DbInv plv pkm ps) : DbInv plv pkm (psOf (stepIntegrity ps)) := by
  unfold stepIntegrity
  repeat' split
  all_goals try exact h
  all_goals exact integrityTail_db plv pkm ps _ _ h.1 h.2

theorem stepEffect_db (plv : List Plan) (pkm : List Nat) (ps : PipeState)
    (h : DbInv plv pkm ps) : DbInv plv pkm (psOf (stepEffect ps)) := by
  unfold stepEffect
  repeat' split
  all_goals exact h

theorem runBody_db (emailOf : String → Option String) (v w s : Bool)
    (plv : List Plan) (pkm : List Nat) (ps : PipeState)
    (h : DbInv plv pkm ps) :
    DbInv plv pkm (psOf (runBody emailOf v w s ps)) := by
  unfold runBody
  have h1 := stepSignature_db v w s plv pkm ps h
  cases hs1 : stepSignature v w s ps with
  | error r => rw [bindErr]; rw [hs1] at h1; exact h1
  | ok ps1 =>
    rw [bindOk]
    rw [hs1] at h1
    have h2 := stepPayloadType_db plv pkm ps1 h1
    cases hs2 : stepPayloadType ps1 with
    | error r => rw [bindErr]; rw [hs2] at h2; exact h2
    | ok ps2 =>
      rw [bindOk]
      rw [hs2] at h2
      have h3 := stepTypeInfo_db plv pkm ps2 h2
      cases hs3 : stepTypeInfo ps2 with
      | error r => rw [bindErr]; rw [hs3] at h3; exact h3
      | ok ps3 =>
        rw [bindOk]
        rw [hs3] at h3
        have h4 := stepCustomer_db emailOf plv pkm ps3 h3
        cases hs4 : stepCustomer emailOf ps3 with
        | error r => rw [bindErr]; rw [hs4] at h4; exact h4
        | ok ps4 =>
          rw [bindOk]
          rw [hs4] at h4
          have h5 := stepIntegrity_db plv pkm ps4 h4
          cases hs5 : stepIntegrity ps4 with
          | error r => rw [bindErr]; rw [hs5] at h5; exact h5
          | ok ps5 =>
            rw [bindOk]
            rw [hs5] at h5
            exact stepEffect_db plv pkm ps5 h5

theorem catchBody_db (r : Except (PipeState × PyErr) PipeState) :
    (catchBody r).db = (psOf r).db := by
  cases r with
  | ok ps => rfl
  | error q => obtain ⟨ps, err⟩ := q; rfl

theorem catchBody_customer (r : Except (PipeState × PyErr) PipeState) :
    (catchBody r).customer = (psOf r).customer := by
  cases r with
  | ok ps => rfl
  | error q => obtain ⟨ps, err⟩ := q; rfl

theorem finalize_plans (ps : PipeState) : (finalize ps).plans = ps.db.plans := by
  unfold finalize
  cases ps.customer <;> rfl

theorem finalize_pkmap (ps : PipeState) :
    (finalize ps).events.map (fun ev => ev.pk)
      = ps.db.events.map (fun ev => ev.pk) := by
  unfold finalize
  cases ps.customer with
  | none => exact pkmap_save _ _
  | some c => exact pkmap_save _ _

theorem finalize_customers (ps : PipeState) :
    (finalize ps).customers = (match ps.customer with
      | some c => saveC ps.db.customers c
      | none => ps.db.customers) := by
  unfold finalize
  cases ps.customer <;> rfl

/-- Effect application and `finally` match `effectC` on the customer
table. -/
theorem effect_correspond (ps : PipeState) (plans : List Plan)
    (r : EventType × Bool × String) (i : Info) (A : Customer)
    (cs3 : List Customer)
    (hc : ps.customer = some A) (hdbc : ps.db.customers = cs3)
    (hdbp : ps.db.plans = plans) (hty : ps.e.type = r.1)
    (hpr : ps.e.primary = r.2.1) (hinfo : ps.e.info = i) :
    (finalize (catchBody (stepEffect ps))).customers
      = effectC plans r i A cs3 := by
  obtain ⟨t, pr, n⟩ := r
  simp only at hty hpr
  unfold stepEffect effectC
  rw [hty, hpr, hinfo, hdbp, hc]
  by_cases hprf : pr = false
  · rw [if_pos hprf, if_pos hprf]
    simp [catchBody, finalize_customers, hc, hdbc]
  · rw [if_neg hprf, if_neg hprf]
    cases t with
    | new_sub =>
      cases hpid : i.priceId with
      | error err => simp [catchBody, finalize_customers, hc, hdbc]
      | ok pid =>
        dsimp only
        cases hplan : getUnique "Plan" (fun pl => pl.price_id = some pid) plans with
        | error err => simp [catchBody, finalize_customers, hc, hdbc]
        | ok plan =>
          dsimp only
          cases hsid : i.subscriptionId with
          | error err => simp [catchBody, finalize_customers, hc, hdbc]
          | ok sid =>
            dsimp only
            cases hts : i.periodEndTs with
            | error err => simp [catchBody, finalize_customers, hdbc]
            | ok ts => simp [catchBody, finalize_customers, hdbc]
    | renew_sub =>
      cases hts : i.periodEndTs with
      | error err => simp [catchBody, finalize_customers, hc, hdbc]
      | ok ts => simp [catchBody, finalize_customers, hdbc]
    | payment_fail => simp [catchBody, finalize_customers, hdbc]
    | cancel_sub => simp [catchBody, finalize_customers, hdbc]
    | reactivate_sub => simp [catchBody, finalize_customers, hdbc]
    | delete_sub =>
      cases hfd : getUnique "Plan" (fun pl => pl.type = .free_default) plans with
      | error err => simp [catchBody, finalize_customers, hdbc]
      | ok fd => simp [catchBody, finalize_customers, hdbc]
    | unknown => simp [catchBody, finalize_customers, hc, hdbc]
    | payment_fix => simp [catchBody, finalize_customers, hc, hdbc]

/-- The `subscription_id` self-heal plus effect match `integC` on the
customer table. -/
theorem integ_correspond (ps : PipeState) (plans : List Plan)
    (r : EventType × Bool × String) (i : Info) (A b2 : Customer)
    (cs2 : List Customer) (db2 : Db)
    (hc : ps.customer = some A)
    (hdbc2 : db2.customers = cs2) (hdbp2 : db2.plans = plans)
    (hty : ps.e.type = r.1) (hpr : ps.e.primary = r.2.1)
    (hinfo : ps.e.info = i) :
    (finalize (catchBody (integrityTail ps b2 db2 >>= stepEffect))).customers
      = integC plans r i A b2 cs2 := by
  unfold integrityTail integC
  rw [hinfo]
  cases hsid : i.subscriptionId with
  | error err =>
    dsimp only
    rw [bindErr]
    simp [catchBody, finalize_customers, hc, hdbc2]
  | ok sid =>
    dsimp only
    by_cases hcond : b2.subscription_id.isSome ∧ b2.subscription_id ≠ some sid
    · rw [if_pos hcond, if_pos hcond, bindOk]
      exact effect_correspond _ plans _ i A _ hc
        (by simp [saveCustomer, hdbc2]) (by simp [saveCustomer, hdbp2])
        hty hpr hinfo
    · rw [if_neg hcond, if_neg hcond, bindOk]
      exact effect_correspond _ plans _ i A _ hc hdbc2 hdbp2 hty hpr hinfo

/-- The integrity checks plus effect match `afterLink` on the customer
table, for a linked pipeline state. -/
theorem link_correspond (ps : PipeState) (plans : List Plan)
    (r : EventType × Bool × String) (i : Info) (upk : Nat) (A : Customer)
    (cs1 : List Customer)
    (hu : ps.e.user = some upk) (hc : ps.customer = some A)
    (hdbc : ps.db.customers = cs1) (hdbp : ps.db.plans = plans)
    (hty : ps.e.type = r.1) (hpr : ps.e.primary = r.2.1)
    (hinfo : ps.e.info = i) :
    (finalize (catchBody (stepIntegrity ps >>= stepEffect))).customers
      = afterLink plans r i upk A cs1 := by
  unfold stepIntegrity afterLink
  rw [hu, hdbc, hinfo]
  dsimp only
  cases hfb : cs1.find? (fun c => c.pk = upk) with
  | none =>
    dsimp only
    rw [bindErr]
    simp [catchBody, finalize_customers, hc, hdbc]
  | some b =>
    dsimp only
    cases hcid : i.customerId with
    | error err =>
      dsimp only
      rw [bindErr]
      simp [catchBody, finalize_customers, hc, hdbc]
    | ok cid2 =>
      dsimp only
      by_cases hneq : b.customer_id ≠ some cid2
      · rw [if_pos hneq, if_pos hneq]
        exact integ_correspond ps plans r i A _ _ _ hc
          (by simp [saveCustomer, hdbc]) (by simp [saveCustomer, hdbp])
          hty hpr hinfo
      · rw [if_neg hneq, if_neg hneq]
        exact integ_correspond ps plans r i A b cs1 ps.db hc hdbc hdbp
          hty hpr hinfo

/-- Customer resolution, integrity and effect match `resolveC` on the
customer table. -/
theorem resolve_correspond (emailOf : String → Option String)
    (ps : PipeState) (plans : List Plan)
    (r : EventType × Bool × String) (i : Info) (cs : List Customer)
    (hinfo : ps.e.info = i) (hty : ps.e.type = r.1)
    (hpr : ps.e.primary = r.2.1) (huser : ps.e.user = none)
    (hcust : ps.customer = none)
    (hdbc : ps.db.customers = cs) (hdbp : ps.db.plans = plans) :
    (finalize (catchBody (stepCustomer emailOf ps >>=
      fun x => stepIntegrity x >>= fun y => stepEffect y))).customers
      = resolveC emailOf plans r i cs := by
  unfold stepCustomer resolveC
  rw [hinfo, hdbc]
  cases hcid : i.customerId with
  | error err =>
    dsimp only
    rw [bindErr]
    simp [catchBody, finalize_customers, hcust, hdbc]
  | ok cid =>
    dsimp only
    cases hfind : cs.find? (fun c => c.customer_id = some cid) with
    | some c =>
      dsimp only
      rw [bindOk]
      unfold linkCustomer afterResolve
      dsimp only
      by_cases hnone : c.customer_id = none
      · rw [if_pos hnone, if_pos hnone]
        exact link_correspond _ plans r i c.pk _ _ rfl rfl
          (by simp [saveCustomer, saveEvent, hdbc])
          (by simp [saveCustomer, saveEvent, hdbp]) hty hpr hinfo
      · rw [if_neg hnone, if_neg hnone]
        exact link_correspond _ plans r i c.pk c cs rfl rfl
          (by simp [saveEvent, hdbc]) (by simp [saveEvent, hdbp])
          hty hpr hinfo
    | none =>
      dsimp only
      cases hem : emailOf cid with
      | none =>
        dsimp only
        rw [bindErr]
        simp [catchBody, finalize_customers, hcust, hdbc]
      | some em =>
        dsimp only
        cases hgu : getUnique "Customer" (fun c => c.email = em) cs with
        | ok c =>
          dsimp only
          rw [bindOk]
          unfold linkCustomer afterResolve
          dsimp only
          by_cases hnone : c.customer_id = none
          · rw [if_pos hnone, if_pos hnone]
            exact link_correspond _ plans r i c.pk _ _ rfl rfl
              (by simp [saveCustomer, saveEvent, hdbc])
              (by simp [saveCustomer, saveEvent, hdbp]) hty hpr hinfo
          · rw [if_neg hnone, if_neg hnone]
            exact link_correspond _ plans r i c.pk c cs rfl rfl
              (by simp [saveEvent, hdbc]) (by simp [saveEvent, hdbp])
              hty hpr hinfo
        | error err =>
          cases err with
          | doesNotExist m =>
            dsimp only
            by_cases hdel : ps.e.type = EventType.delete_sub
            · rw [if_pos hdel]
              rw [bindOk]
              unfold stepIntegrity
              dsimp only
              rw [huser]
              dsimp only
              rw [bindErr]
              simp [catchBody, finalize_customers, hdbc]
            · rw [if_neg hdel]
              rw [bindErr]
              simp [catchBody, finalize_customers, hcust, hdbc]
          | multipleObjectsReturned m =>
            dsimp only
            rw [bindErr]
            simp [catchBody, finalize_customers, hcust, hdbc]
          | keyError k =>
            dsimp only
            rw [bindErr]
            simp [catchBody, finalize_customers, hcust, hdbc]
          | attributeError a =>
            dsimp only
            rw [bindErr]
            simp [catchBody, finalize_customers, hcust, hdbc]
          | signatureVerificationFailed =>
            dsimp only
            rw [bindErr]
            simp [catchBody, finalize_customers, hcust, hdbc]
          | stripeError m =>
            dsimp only
            rw [bindErr]
            simp [catchBody, finalize_customers, hcust, hdbc]

/-- `classifyEvent` reads only `body`, `primary` and `note`. -/
theorem classifyEvent_ext (e1 e2 : StripeEvent) (hb : e1.body = e2.body)
    (hp : e1.primary = e2.primary) (hn : e1.note = e2.note) :
    classifyEvent e1 = classifyEvent e2 := by
  unfold classifyEvent
  rw [hb, hp, hn]

/-- `extractTypeInfo` reads only `payload_type` and `body`. -/
theorem extractTypeInfo_ext (e1 e2 : StripeEvent)
    (hpt : e1.payload_type = e2.payload_type) (hb : e1.body = e2.body) :
    extractTypeInfo e1 = extractTypeInfo e2 := by
  unfold extractTypeInfo
  rw [hpt, hb]

/-- Info extraction onward, when extraction raises: table unchanged. -/
theorem typeinfo_correspond_err (emailOf : String → Option String)
    (ps : PipeState) (cs : List Customer) (err : PyErr)
    (hti : extractTypeInfo ps.e = .error err)
    (hcust : ps.customer = none) (hdbc : ps.db.customers = cs) :
    (finalize (catchBody (stepTypeInfo ps >>=
      fun x => stepCustomer emailOf x >>=
        fun y => stepIntegrity y >>= fun z => stepEffect z))).customers
      = cs := by
  unfold stepTypeInfo
  rw [hti]
  dsimp only
  rw [bindErr]
  simp [catchBody, finalize_customers, hcust, hdbc]

/-- Info extraction onward, when extraction succeeds: the resolution
computation. -/
theorem typeinfo_correspond_ok (emailOf : String → Option String)
    (ps : PipeState) (plans : List Plan)
    (r : EventType × Bool × String) (i : Info) (cs : List Customer)
    (hti : extractTypeInfo ps.e = .ok i)
    (hty : ps.e.type = r.1) (hpr : ps.e.primary = r.2.1)
    (huser : ps.e.user = none) (hcust : ps.customer = none)
    (hdbc : ps.db.customers = cs) (hdbp : ps.db.plans = plans) :
    (finalize (catchBody (stepTypeInfo ps >>=
      fun x => stepCustomer emailOf x >>=
        fun y => stepIntegrity y >>= fun z => stepEffect z))).customers
      = resolveC emailOf plans r i cs := by
  unfold stepTypeInfo
  rw [hti]
  dsimp only
  rw [bindOk]
  exact resolve_correspond emailOf _ plans r i cs rfl hty hpr huser hcust
    (by simp [saveEvent, hdbc]) (by simp [saveEvent, hdbp])

/-- Classification onward, when classification raises: table unchanged. -/
theorem payload_correspond_err (emailOf : String → Option String)
    (ps : PipeState) (cs : List Customer) (err : PyErr)
    (hcl : classifyEvent ps.e = .error err)
    (hcust : ps.customer = none) (hdbc : ps.db.customers = cs) :
    (finalize (catchBody (stepPayloadType ps >>=
      fun x => stepTypeInfo x >>=
        fun y => stepCustomer emailOf y >>=
          fun z => stepIntegrity z >>= fun u => stepEffect u))).customers
      = cs := by
  unfold stepPayloadType
  rw [hcl]
  dsimp only
  rw [bindErr]
  simp [catchBody, finalize_customers, hcust, hdbc]

/-- Classification onward, when extraction then raises: table unchanged. -/
theorem payload_correspond_okerr (emailOf : String → Option String)
    (ps : PipeState) (cs : List Customer)
    (r : EventType × Bool × String) (err : PyErr)
    (hcl : classifyEvent ps.e = .ok r)
    (hti : extractTypeInfo ps.e = .error err)
    (hcust : ps.customer = none) (hdbc : ps.db.customers = cs) :
    (finalize (catchBody (stepPayloadType ps >>=
      fun x => stepTypeInfo x >>=
        fun y => stepCustomer emailOf y >>=
          fun z => stepIntegrity z >>= fun u => stepEffect u))).customers
      = cs := by
  unfold stepPayloadType
  rw [hcl]
  dsimp only
  rw [bindOk]
  exact typeinfo_correspond_err emailOf
    { ps with db := saveEvent ps.db { ps.e with type := r.1, primary := r.2.1, note := r.2.2 }, e := { ps.e with type := r.1, primary := r.2.1, note := r.2.2 } }
    cs err ((extractTypeInfo_ext _ _ rfl rfl).trans hti) hcust
    (by simp [saveEvent, hdbc])

/-- Classification onward, full success: the resolution computation. -/
theorem payload_correspond_okok (emailOf : String → Option String)
    (ps : PipeState) (plans : List Plan) (cs : List Customer)
    (r : EventType × Bool × String) (i : Info)
    (hcl : classifyEvent ps.e = .ok r)
    (hti : extractTypeInfo ps.e = .ok i)
    (huser : ps.e.user = none) (hcust : ps.customer = none)
    (hdbc : ps.db.customers = cs) (hdbp : ps.db.plans = plans) :
    (finalize (catchBody (stepPayloadType ps >>=
      fun x => stepTypeInfo x >>=
        fun y => stepCustomer emailOf y >>=
          fun z => stepIntegrity z >>= fun u => stepEffect u))).customers
      = resolveC emailOf plans r i cs := by
  unfold stepPayloadType
  rw [hcl]
  dsimp only
  rw [bindOk]
  exact typeinfo_correspond_ok emailOf
    { ps with db := saveEvent ps.db { ps.e with type := r.1, primary := r.2.1, note := r.2.2 }, e := { ps.e with type := r.1, primary := r.2.1, note := r.2.2 } }
    plans r i cs ((extractTypeInfo_ext _ _ rfl rfl).trans hti) rfl rfl
    huser hcust (by simp [saveEvent, hdbc]) (by simp [saveEvent, hdbp])

/-- One full run of the pipeline body and `finally` on a fresh ledger row
for payload `p` acts on the customer table as `runCustomers`. -/
theorem customers_run (emailOf : String → Option String) (v w s : Bool)
    (pk : Nat) (p : Payload) (db : Db) :
    (finalize (catchBody (runBody emailOf v w s
      { db := saveEvent (addEvent db (mkEvent pk p))
          { mkEvent pk p with status := .pending },
        e := { mkEvent pk p with status := .pending },
        customer := none }))).customers
      = runCustomers emailOf v w s db.plans p db.customers := by
  unfold runBody runCustomers stepSignature
  by_cases hsig : v ∧ w ∧ s = false
  · rw [if_pos hsig, if_pos hsig, bindErr]
    simp [catchBody, finalize_customers, saveEvent, addEvent]
  · rw [if_neg hsig, if_neg hsig, bindOk]
    have hcl0 : classifyEvent ({ mkEvent pk p with status := EventStatus.pending } : StripeEvent) = classifyEvent (mkEvent 0 p) :=
      classifyEvent_ext _ _ rfl rfl rfl
    have hti0 : extractTypeInfo ({ mkEvent pk p with status := EventStatus.pending } : StripeEvent) = extractTypeInfo (mkEvent 0 p) :=
      extractTypeInfo_ext _ _ rfl rfl
    cases hcl : classifyEvent (mkEvent 0 p) with
    | error err =>
      dsimp only
      exact payload_correspond_err emailOf
        { db := saveEvent (addEvent db (mkEvent pk p))
            { mkEvent pk p with status := .pending },
          e := { mkEvent pk p with status := .pending }, customer := none }
        db.customers err (hcl0.trans hcl) rfl rfl
    | ok r =>
      dsimp only
      cases hti : extractTypeInfo (mkEvent 0 p) with
      | error err =>
        dsimp only
        exact payload_correspond_okerr emailOf
          { db := saveEvent (addEvent db (mkEvent pk p))
              { mkEvent pk p with status := .pending },
            e := { mkEvent pk p with status := .pending }, customer := none }
          db.customers r err (hcl0.trans hcl) (hti0.trans hti) rfl rfl
      | ok i =>
        dsimp only
        exact payload_correspond_okok emailOf
          { db := saveEvent (addEvent db (mkEvent pk p))
              { mkEvent pk p with status := .pending },
            e := { mkEvent pk p with status := .pending }, customer := none }
          db.plans db.customers r i (hcl0.trans hcl) (hti0.trans hti)
          rfl rfl rfl rfl

/-!
Idempotence of `runCustomers`.  The effect's mutation of the in-memory
customer is isolated as `effApply`; every table outcome is a `saveC` of
the final customer value, and re-running resolves the same row with the
same final value.
-/

/-- The effect's final in-memory customer value. -/
def effApply (plans : List Plan) (r : EventType × Bool × String) (i : Info)
    (A : Customer) : Customer :=
  if r.2.1 = false then A
  else match r.1 with
  | .new_sub =>
    match i.priceId with
    | .error _ => A
    | .ok pid =>
      match getUnique "Plan" (fun pl => pl.price_id = some pid) plans with
      | .error _ => A
      | .ok plan =>
        match i.subscriptionId with
        | .error _ => A
        | .ok sid =>
          match i.periodEndTs with
          | .error _ => { A with subscription_id := some sid, plan := plan }
          | .ok ts => { { A with subscription_id := some sid, plan := plan } with current_period_end := some ts, payment_state := PaymentState.ok }
  | .renew_sub =>
    match i.periodEndTs with
    | .error _ => A
    | .ok ts => { A with current_period_end := some ts }
  | .payment_fail => { A with payment_state := .requires_payment_method }
  | .cancel_sub => { A with payment_state := .off }
  | .reactivate_sub => { A with payment_state := .ok }
  | .delete_sub =>
    match getUnique "Plan" (fun pl => pl.type = .free_default) plans with
    | .error _ => { A with payment_state := .off }
    | .ok fd => { { A with payment_state := PaymentState.off } with plan := fd, current_period_end := none, subscription_id := none }
  | _ => A

/-- The in-memory customer persisted by the `finally` step, including the
case where the `subscription_id` access raised before the effect ran. -/
def valAfter (plans : List Plan) (r : EventType × Bool × String) (i : Info)
    (A : Customer) : Customer :=
  match i.subscriptionId with
  | .error _ => A
  | .ok _ => effApply plans r i A

/-- The in-memory customer after the linkage tail. -/
def linkA (c : Customer) (cid : String) : Customer :=
  if c.customer_id = none then { c with customer_id := some cid } else c

theorem effectC_eq (plans : List Plan) (r : EventType × Bool × String)
    (i : Info) (A : Customer) (cs3 : List Customer) :
    effectC plans r i A cs3 = saveC cs3 (effApply plans r i A) := by
  unfold effectC effApply
  by_cases hpr : r.2.1 = false
  · simp only [if_pos hpr]
  · simp only [if_neg hpr]
    cases ht : r.1 with
    | unknown => rfl
    | payment_fail => rfl
    | payment_fix => rfl
    | cancel_sub => rfl
    | reactivate_sub => rfl
    | new_sub =>
      cases hp : i.priceId with
      | error e => rfl
      | ok pid =>
        dsimp only
        cases hpl : getUnique "Plan" (fun pl => pl.price_id = some pid) plans with
        | error e => rfl
        | ok plan =>
          dsimp only
          cases hs : i.subscriptionId with
          | error e => rfl
          | ok sid =>
            dsimp only
            cases hts : i.periodEndTs with
            | error e => rfl
            | ok ts => rfl
    | renew_sub =>
      cases hts : i.periodEndTs with
      | error e => rfl
      | ok ts => rfl
    | delete_sub =>
      cases hfd : getUnique "Plan" (fun pl => pl.type = .free_default) plans with
      | error e => rfl
      | ok fd => rfl

theorem effApply_idem (plans : List Plan) (r : EventType × Bool × String)
    (i : Info) (A : Customer) :
    effApply plans r i (effApply plans r i A) = effApply plans r i A := by
  unfold effApply
  by_cases hpr : r.2.1 = false
  · simp only [if_pos hpr]
  · simp only [if_neg hpr]
    cases ht : r.1 with
    | unknown => rfl
    | payment_fail => rfl
    | payment_fix => rfl
    | cancel_sub => rfl
    | reactivate_sub => rfl
    | new_sub =>
      cases hp : i.priceId with
      | error e => rfl
      | ok pid =>
        dsimp only
        cases hpl : getUnique "Plan" (fun pl => pl.price_id = some pid) plans with
        | error e => rfl
        | ok plan =>
          dsimp only
          cases hs : i.subscriptionId with
          | error e => rfl
          | ok sid =>
            dsimp only
            cases hts : i.periodEndTs with
            | error e => rfl
            | ok ts => rfl
    | renew_sub =>
      cases hts : i.periodEndTs with
      | error e => rfl
      | ok ts => rfl
    | delete_sub =>
      cases hfd : getUnique "Plan" (fun pl => pl.type = .free_default) plans with
      | error e => rfl
      | ok fd => rfl

theorem effApply_pk (plans : List Plan) (r : EventType × Bool × String)
    (i : Info) (A : Customer) : (effApply plans r i A).pk = A.pk := by
  unfold effApply
  by_cases hpr : r.2.1 = false
  · simp only [if_pos hpr]
  · simp only [if_neg hpr]
    cases ht : r.1 with
    | unknown => rfl
    | payment_fail => rfl
    | payment_fix => rfl
    | cancel_sub => rfl
    | reactivate_sub => rfl
    | new_sub =>
      cases hp : i.priceId with
      | error e => rfl
      | ok pid =>
        dsimp only
        cases hpl : getUnique "Plan" (fun pl => pl.price_id = some pid) plans with
        | error e => rfl
        | ok plan =>
          dsimp only
          cases hs : i.subscriptionId with
          | error e => rfl
          | ok sid =>
            dsimp only
            cases hts : i.periodEndTs with
            | error e => rfl
            | ok ts => rfl
    | renew_sub =>
      cases hts : i.periodEndTs with
      | error e => rfl
      | ok ts => rfl
    | delete_sub =>
      cases hfd : getUnique "Plan" (fun pl => pl.type = .free_default) plans with
      | error e => rfl
      | ok fd => rfl

theorem effApply_email (plans : List Plan) (r : EventType × Bool × String)
    (i : Info) (A : Customer) : (effApply plans r i A).email = A.email := by
  unfold effApply
  by_cases hpr : r.2.1 = false
  · simp only [if_pos hpr]
  · simp only [if_neg hpr]
    cases ht : r.1 with
    | unknown => rfl
    | payment_fail => rfl
    | payment_fix => rfl
    | cancel_sub => rfl
    | reactivate_sub => rfl
    | new_sub =>
      cases hp : i.priceId with
      | error e => rfl
      | ok pid =>
        dsimp only
        cases hpl : getUnique "Plan" (fun pl => pl.price_id = some pid) plans with
        | error e => rfl
        | ok plan =>
          dsimp only
          cases hs : i.subscriptionId with
          | error e => rfl
          | ok sid =>
            dsimp only
            cases hts : i.periodEndTs with
            | error e => rfl
            | ok ts => rfl
    | renew_sub =>
      cases hts : i.periodEndTs with
      | error e => rfl
      | ok ts => rfl
    | delete_sub =>
      cases hfd : getUnique "Plan" (fun pl => pl.type = .free_default) plans with
      | error e => rfl
      | ok fd => rfl

theorem effApply_customer_id (plans : List Plan)
    (r : EventType × Bool × String) (i : Info) (A : Customer) :
    (effApply plans r i A).customer_id = A.customer_id := by
  unfold effApply
  by_cases hpr : r.2.1 = false
  · simp only [if_pos hpr]
  · simp only [if_neg hpr]
    cases ht : r.1 with
    | unknown => rfl
    | payment_fail => rfl
    | payment_fix => rfl
    | cancel_sub => rfl
    | reactivate_sub => rfl
    | new_sub =>
      cases hp : i.priceId with
      | error e => rfl
      | ok pid =>
        dsimp only
        cases hpl : getUnique "Plan" (fun pl => pl.price_id = some pid) plans with
        | error e => rfl
        | ok plan =>
          dsimp only
          cases hs : i.subscriptionId with
          | error e => rfl
          | ok sid =>
            dsimp only
            cases hts : i.periodEndTs with
            | error e => rfl
            | ok ts => rfl
    | renew_sub =>
      cases hts : i.periodEndTs with
      | error e => rfl
      | ok ts => rfl
    | delete_sub =>
      cases hfd : getUnique "Plan" (fun pl => pl.type = .free_default) plans with
      | error e => rfl
      | ok fd => rfl

theorem valAfter_idem (plans : List Plan) (r : EventType × Bool × String)
    (i : Info) (A : Customer) :
    valAfter plans r i (valAfter plans r i A) = valAfter plans r i A := by
  unfold valAfter
  cases i.subscriptionId with
  | error err => rfl
  | ok sid => exact effApply_idem plans r i A

theorem valAfter_pk (plans : List Plan) (r : EventType × Bool × String)
    (i : Info) (A : Customer) : (valAfter plans r i A).pk = A.pk := by
  unfold valAfter
  cases i.subscriptionId with
  | error err => rfl
  | ok sid => exact effApply_pk plans r i A

theorem valAfter_email (plans : List Plan) (r : EventType × Bool × String)
    (i : Info) (A : Customer) : (valAfter plans r i A).email = A.email := by
  unfold valAfter
  cases i.subscriptionId with
  | error err => rfl
  | ok sid => exact effApply_email plans r i A

theorem valAfter_customer_id (plans : List Plan)
    (r : EventType × Bool × String) (i : Info) (A : Customer) :
    (valAfter plans r i A).customer_id = A.customer_id := by
  unfold valAfter
  cases i.subscriptionId with
  | error err => rfl
  | ok sid => exact effApply_customer_id plans r i A

theorem saveC_saveC (cs : List Customer) (b a : Customer)
    (h : b.pk = a.pk) : saveC (saveC cs b) a = saveC cs a := by
  unfold saveC
  rw [List.map_map]
  apply List.map_congr_left
  intro x _
  dsimp only [Function.comp]
  by_cases hxb : x.pk = b.pk
  · rw [if_pos hxb, if_pos h, if_pos (hxb.trans h)]
  · rw [if_neg hxb]

theorem saveC_pkmap (cs : List Customer) (a : Customer) :
    (saveC cs a).map Customer.pk = cs.map Customer.pk := by
  unfold saveC
  rw [List.map_map]
  apply List.map_congr_left
  intro x _
  dsimp only [Function.comp]
  by_cases hx : x.pk = a.pk
  · rw [if_pos hx, hx]
  · rw [if_neg hx]

theorem pk_unique {cs : List Customer} {c x : Customer}
    (hnd : (cs.map Customer.pk).Nodup) (hc : c ∈ cs) (hx : x ∈ cs)
    (h : x.pk = c.pk) : x = c :=
  List.inj_on_of_nodup_map hnd hx hc h

theorem saveC_cons (x : Customer) (xs : List Customer) (a : Customer) :
    saveC (x :: xs) a = (if x.pk = a.pk then a else x) :: saveC xs a := rfl

theorem nodup_pk_tail {x : Customer} {xs : List Customer}
    (hnd : ((x :: xs).map Customer.pk).Nodup) :
    (xs.map Customer.pk).Nodup := by
  rw [List.map_cons] at hnd
  exact hnd.of_cons

theorem nodup_pk_head {x : Customer} {xs : List Customer}
    (hnd : ((x :: xs).map Customer.pk).Nodup) :
    x.pk ∉ xs.map Customer.pk := by
  rw [List.map_cons] at hnd
  exact (List.nodup_cons.mp hnd).1

theorem find?_pk_of_nodup {c : Customer} :
    ∀ {cs : List Customer}, (cs.map Customer.pk).Nodup → c ∈ cs →
      cs.find? (fun x => x.pk = c.pk) = some c := by
  intro cs
  induction cs with
  | nil => intro _ hc; cases hc
  | cons y ys ih =>
    intro hnd hc
    by_cases hyp : y.pk = c.pk
    · have hyc : y = c := pk_unique hnd hc (List.mem_cons_self y ys) hyp
      rw [List.find?_cons_of_pos _ (by simp [hyp])]
      rw [hyc]
    · have hcy : c ∈ ys := by
        rcases List.mem_cons.mp hc with h | h
        · exact absurd (show y.pk = c.pk by rw [h]) hyp
        · exact h
      rw [List.find?_cons_of_neg _ (by simp [hyp])]
      exact ih (nodup_pk_tail hnd) hcy

theorem find?_saveC_found {q : Customer → Bool} {c a : Customer} :
    ∀ {cs : List Customer}, (cs.map Customer.pk).Nodup →
      cs.find? q = some c → a.pk = c.pk → q a = true →
      (saveC cs a).find? q = some a := by
  intro cs
  induction cs with
  | nil => intro _ h; cases h
  | cons x xs ih =>
    intro hnd hfound hapk hqa
    by_cases hqx : q x = true
    · rw [List.find?_cons_of_pos _ hqx] at hfound
      have hxc : x = c := by injection hfound
      rw [saveC_cons, if_pos (hxc ▸ hapk.symm)]
      rw [List.find?_cons_of_pos _ hqa]
    · rw [List.find?_cons_of_neg _ hqx] at hfound
      have hcxs : c ∈ xs := List.mem_of_find?_eq_some hfound
      have hxc : x.pk ≠ c.pk := by
        intro hh
        have := nodup_pk_head hnd
        exact this (hh ▸ List.mem_map_of_mem Customer.pk hcxs)
      rw [saveC_cons, if_neg (fun hh => hxc (hh.trans hapk))]
      rw [List.find?_cons_of_neg _ hqx]
      exact ih (nodup_pk_tail hnd) hfound hapk hqa

theorem find?_saveC_none {q : Customer → Bool} {a : Customer} :
    ∀ {cs : List Customer}, cs.find? q = none →
      (∃ x ∈ cs, x.pk = a.pk) → q a = true →
      (saveC cs a).find? q = some a := by
  intro cs
  induction cs with
  | nil => rintro _ ⟨x, hx, -⟩ _; cases hx
  | cons x xs ih =>
    intro hnone hmem hqa
    have hqx : ¬ q x = true := by
      intro hh
      rw [List.find?_cons_of_pos _ hh] at hnone
      cases hnone
    rw [List.find?_cons_of_neg _ hqx] at hnone
    rw [saveC_cons]
    by_cases hx : x.pk = a.pk
    · rw [if_pos hx]
      rw [List.find?_cons_of_pos _ hqa]
    · rw [if_neg hx]
      rw [List.find?_cons_of_neg _ hqx]
      obtain ⟨y, hy, hypk⟩ := hmem
      rcases List.mem_cons.mp hy with h | h
      · exact absurd (h ▸ hypk) hx
      · exact ih hnone ⟨y, h, hypk⟩ hqa

theorem find?_saveC_none_none {q : Customer → Bool} {a : Customer}
    {cs : List Customer} (hnone : cs.find? q = none) (hqa : q a = false) :
    (saveC cs a).find? q = none := by
  rw [List.find?_eq_none] at hnone ⊢
  intro y hy
  obtain ⟨x, hx, hfx⟩ := List.mem_map.mp hy
  by_cases h : x.pk = a.pk
  · rw [if_pos h] at hfx
    rw [← hfx]
    simp [hqa]
  · rw [if_neg h] at hfx
    rw [← hfx]
    exact hnone x hx

theorem mem_saveC {a : Customer} {cs : List Customer}
    (hmem : ∃ x ∈ cs, x.pk = a.pk) : a ∈ saveC cs a := by
  obtain ⟨x, hx, hpk⟩ := hmem
  unfold saveC
  exact List.mem_map.mpr ⟨x, hx, by rw [if_pos hpk]⟩

theorem getUnique_ok {α : Type} {name : String} {p : α → Bool}
    {xs : List α} {x : α} (h : getUnique name p xs = .ok x) :
    xs.filter p = [x] := by
  unfold getUnique at h
  cases hf : xs.filter p with
  | nil => rw [hf] at h; cases h
  | cons y ys =>
    cases ys with
    | nil =>
      rw [hf] at h
      cases h
      rfl
    | cons z zs => rw [hf] at h; cases h

theorem integC_collapse (plans : List Plan) (r : EventType × Bool × String)
    (i : Info) (A b2 : Customer) (cs2 : List Customer)
    (hpk : b2.pk = A.pk) :
    integC plans r i A b2 cs2 = saveC cs2 (valAfter plans r i A) := by
  unfold integC valAfter
  cases hsid : i.subscriptionId with
  | error e => rfl
  | ok sid =>
    dsimp only
    by_cases h2 : b2.subscription_id.isSome ∧ b2.subscription_id ≠ some sid
    · rw [if_pos h2, effectC_eq, saveC_saveC]
      rw [effApply_pk]
      exact hpk
    · rw [if_neg h2, effectC_eq]

theorem afterLink_collapse (plans : List Plan) (r : EventType × Bool × String)
    (i : Info) (upk : Nat) (A : Customer) (cs1 : List Customer)
    (b : Customer) (cid : String)
    (hfb : cs1.find? (fun x => x.pk = upk) = some b)
    (hcid : i.customerId = .ok cid)
    (hbpk : b.pk = A.pk) :
    afterLink plans r i upk A cs1 = saveC cs1 (valAfter plans r i A) := by
  unfold afterLink
  rw [hfb, hcid]
  dsimp only
  by_cases h1 : b.customer_id ≠ some cid
  · rw [if_pos h1,
      integC_collapse _ _ _ _ _ _
        (show ({ b with customer_id := some cid } : Customer).pk = A.pk from hbpk),
      saveC_saveC]
    rw [valAfter_pk]
    exact hbpk
  · rw [if_neg h1, integC_collapse _ _ _ _ _ _ hbpk]

theorem afterResolve_nf (plans : List Plan) (r : EventType × Bool × String)
    (i : Info) (cid : String) (c : Customer) (cs : List Customer)
    (hnd : (cs.map Customer.pk).Nodup) (hc : c ∈ cs)
    (hcid : i.customerId = .ok cid) :
    afterResolve plans r i cid c cs
      = saveC cs (valAfter plans r i (linkA c cid)) := by
  have hfc : cs.find? (fun x => x.pk = c.pk) = some c := find?_pk_of_nodup hnd hc
  unfold afterResolve linkA
  by_cases h : c.customer_id = none
  · simp only [if_pos h]
    have hf : (saveC cs { c with customer_id := some cid }).find?
        (fun x => x.pk = c.pk) = some { c with customer_id := some cid } :=
      find?_saveC_found hnd hfc rfl (by simp)
    rw [afterLink_collapse _ _ _ _ _ _ _ _ hf hcid rfl, saveC_saveC]
    rw [valAfter_pk]
  · simp only [if_neg h]
    rw [afterLink_collapse _ _ _ _ _ _ _ _ hfc hcid rfl]

theorem linkA_of_ne (c : Customer) (cid : String)
    (h : ¬ c.customer_id = none) : linkA c cid = c := by
  unfold linkA
  rw [if_neg h]

theorem linkA_of_none (c : Customer) (cid : String)
    (h : c.customer_id = none) :
    linkA c cid = { c with customer_id := some cid } := by
  unfold linkA
  rw [if_pos h]

theorem resolveC_idem (emailOf : String → Option String) (plans : List Plan)
    (r : EventType × Bool × String) (i : Info) (cs : List Customer)
    (hnd : (cs.map Customer.pk).Nodup) :
    resolveC emailOf plans r i (resolveC emailOf plans r i cs)
      = resolveC emailOf plans r i cs := by
  cases hcid : i.customerId with
  | error e =>
    have hred : ∀ X : List Customer, resolveC emailOf plans r i X = X := by
      intro X
      unfold resolveC
      rw [hcid]
    rw [hred, hred]
  | ok cid =>
    cases hfind : cs.find? (fun c => c.customer_id = some cid) with
    | some c =>
      have hc : c ∈ cs := List.mem_of_find?_eq_some hfind
      have hbyc : c.customer_id = some cid := by
        simpa using List.find?_some hfind
      have h1 : resolveC emailOf plans r i cs
          = saveC cs (valAfter plans r i (linkA c cid)) := by
        unfold resolveC
        rw [hcid]
        dsimp only
        rw [hfind]
        exact afterResolve_nf plans r i cid c cs hnd hc hcid
      have hlA : linkA c cid = c := linkA_of_ne c cid (by simp [hbyc])
      have hpkA : (valAfter plans r i (linkA c cid)).pk = c.pk := by
        rw [valAfter_pk, hlA]
      have hcidA : (valAfter plans r i (linkA c cid)).customer_id = some cid := by
        rw [valAfter_customer_id, hlA]
        exact hbyc
      rw [h1]
      have hfind2 : (saveC cs (valAfter plans r i (linkA c cid))).find?
          (fun x => x.customer_id = some cid)
          = some (valAfter plans r i (linkA c cid)) :=
        find?_saveC_found hnd hfind hpkA (by simp [hcidA])
      unfold resolveC
      rw [hcid]
      dsimp only
      rw [hfind2]
      dsimp only
      rw [afterResolve_nf plans r i cid _ _
        (by rw [saveC_pkmap]; exact hnd) (mem_saveC ⟨c, hc, hpkA.symm⟩) hcid]
      have hlA2 : linkA (valAfter plans r i (linkA c cid)) cid
          = valAfter plans r i (linkA c cid) :=
        linkA_of_ne _ cid (by rw [hcidA]; simp)
      rw [hlA2, valAfter_idem]
      exact saveC_saveC cs _ _ rfl
    | none =>
      cases hem : emailOf cid with
      | none =>
        have hred : resolveC emailOf plans r i cs = cs := by
          unfold resolveC
          rw [hcid]
          dsimp only
          rw [hfind]
          dsimp only
          rw [hem]
        rw [hred, hred]
      | some em =>
        cases hgu : getUnique "Customer" (fun c => c.email = em) cs with
        | error e2 =>
          have hred : resolveC emailOf plans r i cs = cs := by
            unfold resolveC
            rw [hcid]
            dsimp only
            rw [hfind]
            dsimp only
            rw [hem]
            dsimp only
            rw [hgu]
          rw [hred, hred]
        | ok c =>
          have hflt : cs.filter (fun c => c.email = em) = [c] := getUnique_ok hgu
          have hcf : c ∈ cs.filter (fun c => c.email = em) := by
            rw [hflt]
            exact List.mem_singleton.mpr rfl
          have hc : c ∈ cs := List.mem_of_mem_filter hcf
          have hnotcid : ¬ (c.customer_id = some cid) := by
            intro hh
            have := List.find?_eq_none.mp hfind c hc
            simp [hh] at this
          have h1 : resolveC emailOf plans r i cs
              = saveC cs (valAfter plans r i (linkA c cid)) := by
            unfold resolveC
            rw [hcid]
            dsimp only
            rw [hfind]
            dsimp only
            rw [hem]
            dsimp only
            rw [hgu]
            exact afterResolve_nf plans r i cid c cs hnd hc hcid
          rw [h1]
          by_cases hnone : c.customer_id = none
          · have hlA : linkA c cid = { c with customer_id := some cid } :=
              linkA_of_none c cid hnone
            have hpkA : (valAfter plans r i (linkA c cid)).pk = c.pk := by
              rw [valAfter_pk, hlA]
            have hcidA : (valAfter plans r i (linkA c cid)).customer_id = some cid := by
              rw [valAfter_customer_id, hlA]
            have hfind2 : (saveC cs (valAfter plans r i (linkA c cid))).find?
                (fun x => x.customer_id = some cid)
                = some (valAfter plans r i (linkA c cid)) :=
              find?_saveC_none hfind ⟨c, hc, hpkA.symm⟩ (by simp [hcidA])
            unfold resolveC
            rw [hcid]
            dsimp only
            rw [hfind2]
            dsimp only
            rw [afterResolve_nf plans r i cid _ _
              (by rw [saveC_pkmap]; exact hnd) (mem_saveC ⟨c, hc, hpkA.symm⟩) hcid]
            have hlA2 : linkA (valAfter plans r i (linkA c cid)) cid
                = valAfter plans r i (linkA c cid) :=
              linkA_of_ne _ cid (by rw [hcidA]; simp)
            rw [hlA2, valAfter_idem]
            exact saveC_saveC cs _ _ rfl
          · have hlA : linkA c cid = c := linkA_of_ne c cid hnone
            have hpkA : (valAfter plans r i (linkA c cid)).pk = c.pk := by
              rw [valAfter_pk, hlA]
            have hcidA : (valAfter plans r i (linkA c cid)).customer_id = c.customer_id := by
              rw [valAfter_customer_id, hlA]
            have hemailA : (valAfter plans r i (linkA c cid)).email = c.email := by
              rw [valAfter_email, hlA]
            have hfind2 : (saveC cs (valAfter plans r i (linkA c cid))).find?
                (fun x => x.customer_id = some cid) = none :=
              find?_saveC_none_none hfind (by simp [hcidA, hnotcid])
            have hpw : ∀ x ∈ cs,
                (decide ((if x.pk = (valAfter plans r i (linkA c cid)).pk
                  then valAfter plans r i (linkA c cid) else x).email = em) : Bool)
                = decide (x.email = em) := by
              intro x hx
              by_cases hxp : x.pk = (valAfter plans r i (linkA c cid)).pk
              · have hxc : x = c := pk_unique hnd hc hx (by rw [hxp, hpkA])
                rw [if_pos hxp, hxc, hemailA]
              · rw [if_neg hxp]
            have hflt2 : (saveC cs (valAfter plans r i (linkA c cid))).filter
                (fun x => x.email = em) = [valAfter plans r i (linkA c cid)] := by
              unfold saveC
              rw [filter_map_congr
                (fun x => if x.pk = (valAfter plans r i (linkA c cid)).pk
                  then valAfter plans r i (linkA c cid) else x)
                (fun x => decide (x.email = em)) hpw]
              rw [hflt]
              simp [hpkA]
            have hgu2 : getUnique "Customer" (fun x => x.email = em)
                (saveC cs (valAfter plans r i (linkA c cid)))
                = .ok (valAfter plans r i (linkA c cid)) := by
              unfold getUnique
              rw [hflt2]
            unfold resolveC
            rw [hcid]
            dsimp only
            rw [hfind2]
            dsimp only
            rw [hem]
            dsimp only
            rw [hgu2]
            dsimp only
            rw [afterResolve_nf plans r i cid _ _
              (by rw [saveC_pkmap]; exact hnd) (mem_saveC ⟨c, hc, hpkA.symm⟩) hcid]
            have hlA2 : linkA (valAfter plans r i (linkA c cid)) cid
                = valAfter plans r i (linkA c cid) :=
              linkA_of_ne _ cid (by rw [hcidA]; exact hnone)
            rw [hlA2, valAfter_idem]
            exact saveC_saveC cs _ _ rfl

theorem runCustomers_idem (emailOf : String → Option String) (v w s : Bool)
    (plans : List Plan) (p : Payload) (cs : List Customer)
    (hnd : (cs.map Customer.pk).Nodup) :
    runCustomers emailOf v w s plans p (runCustomers emailOf v w s plans p cs)
      = runCustomers emailOf v w s plans p cs := by
  unfold runCustomers
  by_cases hg : v ∧ w ∧ s = false
  · simp only [if_pos hg]
  · simp only [if_neg hg]
    cases hcl : classifyEvent (mkEvent 0 p) with
    | error e => rfl
    | ok r =>
      cases hti : extractTypeInfo (mkEvent 0 p) with
      | error e => rfl
      | ok i => exact resolveC_idem emailOf plans r i cs hnd

/-- One processor run on a freshly ingested payload: it succeeds, the
customer table is `runCustomers`, the plan table is unchanged, and the
ledger key column gains exactly the new key. -/
theorem process_run (emailOf : String → Option String) (v w s : Bool)
    (db : Db) (pk : Nat) (p : Payload)
    (hfresh : ∀ ev ∈ db.events, ev.pk ≠ pk) :
    ∃ db', processStripeEvent emailOf v w s (addEvent db (mkEvent pk p)) pk
        = .ok db' ∧
      db'.customers = runCustomers emailOf v w s db.plans p db.customers ∧
      db'.plans = db.plans ∧
      db'.events.map (fun ev => ev.pk)
        = db.events.map (fun ev => ev.pk) ++ [pk] := by
  have hget : getUnique "StripeEvent" (fun ev => ev.pk = pk)
      (addEvent db (mkEvent pk p)).events = .ok (mkEvent pk p) := by
    unfold getUnique addEvent
    dsimp only
    rw [List.filter_append]
    have h1 : db.events.filter (fun ev => ev.pk = pk) = [] := by
      rw [List.filter_eq_nil_iff]
      intro a ha
      simp [hfresh a ha]
    have h2 : ([mkEvent pk p] : List StripeEvent).filter
        (fun ev => ev.pk = pk) = [mkEvent pk p] := by
      simp [mkEvent]
    rw [h1, h2]
    rfl
  have hinv0 : DbInv db.plans
      ((addEvent db (mkEvent pk p)).events.map (fun ev => ev.pk))
      { db := saveEvent (addEvent db (mkEvent pk p))
          { mkEvent pk p with status := .pending },
        e := { mkEvent pk p with status := .pending }, customer := none } :=
    ⟨rfl, pkmap_save _ _⟩
  have hinv := runBody_db emailOf v w s db.plans _ _ hinv0
  refine ⟨finalize (catchBody (runBody emailOf v w s
      { db := saveEvent (addEvent db (mkEvent pk p))
          { mkEvent pk p with status := .pending },
        e := { mkEvent pk p with status := .pending }, customer := none })),
    process_eq emailOf v w s _ pk (mkEvent pk p) hget,
    customers_run emailOf v w s pk p db, ?_, ?_⟩
  · rw [finalize_plans, catchBody_db]
    exact hinv.1
  · rw [finalize_pkmap, catchBody_db, hinv.2]
    simp [addEvent, mkEvent]

/-- C4: for every NewSub or DeleteSub event payload, ingesting and
processing the same payload twice (fresh ledger keys, same external
customer/subscription identifiers in the payload) leaves the same final
customer-profile and plan state as processing it once: the second run's
effect is a full overwrite of the rows the first run wrote. -/
theorem C4_replay_idempotent (emailOf : String → Option String)
    (v w s : Bool) (db0 : Db) (pk1 pk2 : Nat) (p : Payload)
    (hfresh1 : ∀ ev ∈ db0.events, ev.pk ≠ pk1)
    (hfresh2 : ∀ ev ∈ db0.events, ev.pk ≠ pk2)
    (hpk12 : pk1 ≠ pk2)
    (hnd : (db0.customers.map Customer.pk).Nodup)
    (r : EventType × Bool × String)
    (hcl : classifyEvent (mkEvent 0 p) = .ok r)
    (ht : r.1 = .new_sub ∨ r.1 = .delete_sub) :
    ∃ db1 db2,
      processStripeEvent emailOf v w s (addEvent db0 (mkEvent pk1 p)) pk1
        = .ok db1 ∧
      processStripeEvent emailOf v w s (addEvent db1 (mkEvent pk2 p)) pk2
        = .ok db2 ∧
      db2.customers = db1.customers ∧ db2.plans = db1.plans := by
  obtain ⟨db1, hp1, hc1, hpl1, hev1⟩ :=
    process_run emailOf v w s db0 pk1 p hfresh1
  have hfresh2' : ∀ ev ∈ db1.events, ev.pk ≠ pk2 := by
    intro ev hev
    have hmem : ev.pk ∈ db1.events.map (fun ev => ev.pk) :=
      List.mem_map_of_mem _ hev
    rw [hev1] at hmem
    rcases List.mem_append.mp hmem with h | h
    · obtain ⟨ev0, hev0, hpk0⟩ := List.mem_map.mp h
      rw [← hpk0]
      exact hfresh2 ev0 hev0
    · rw [List.mem_singleton.mp h]
      exact hpk12
  obtain ⟨db2, hp2, hc2, hpl2, hev2⟩ :=
    process_run emailOf v w s db1 pk2 p hfresh2'
  refine ⟨db1, db2, hp1, hp2, ?_, by rw [hpl2, hpl1]⟩
  rw [hc2, hpl1, hc1]
  exact runCustomers_idem emailOf v w s db0.plans p db0.customers hnd

/-- A `customer.subscription.deleted` payload, classified DeleteSub. -/
def payloadDelEx : Payload :=
  ⟨"customer.subscription.deleted",
    ⟨none, some "cus_1", none, some "sub_1", some "canceled", some false,
      none, none⟩, none⟩

/-- A one-customer database with no ledger rows yet. -/
def dbC4Ex : Db :=
  ⟨[Billing.planFreeEx, Billing.planPaidEx],
    [⟨1, "a@b.c", some "cus_1", some "sub_1", Billing.planPaidEx,
      some 50, .ok⟩], []⟩

/-- C4 witness: the hypotheses hold at the concrete DeleteSub payload and
database, and replaying it is idempotent on customers and plans. -/
theorem C4_replay_idempotent_witness :
    (∀ ev ∈ dbC4Ex.events, ev.pk ≠ 1) ∧
    (∀ ev ∈ dbC4Ex.events, ev.pk ≠ 2) ∧
    (1 : Nat) ≠ 2 ∧
    (dbC4Ex.customers.map Customer.pk).Nodup ∧
    classifyEvent (mkEvent 0 payloadDelEx)
      = .ok (EventType.delete_sub, true, "") ∧
    (∃ db1 db2,
      processStripeEvent (fun _ => none) true true true
          (addEvent dbC4Ex (mkEvent 1 payloadDelEx)) 1 = .ok db1 ∧
      processStripeEvent (fun _ => none) true true true
          (addEvent db1 (mkEvent 2 payloadDelEx)) 2 = .ok db2 ∧
      db2.customers = db1.customers ∧ db2.plans = db1.plans) :=
  ⟨by simp [dbC4Ex], by simp [dbC4Ex], by decide, by decide, rfl,
    C4_replay_idempotent (fun _ => none) true true true dbC4Ex 1 2
      payloadDelEx (by simp [dbC4Ex]) (by simp [dbC4Ex]) (by decide)
      (by decide) (EventType.delete_sub, true, "") rfl (Or.inr rfl)⟩

end Billing.Tasks
